import Mathlib

set_option linter.dupNamespace false

/-!
# dexon-consensus: block model, signature check, simulation network

A shallow embedding of `core/types/block.go`, `core/crypto/ecdsa/ecdsa.go`,
`simulation/network.go` and of the block target computed in
`cmd/dexcon-simulation-with-scheduler/main.go`.

Go values that are references (maps, channels) are kept apart from the values
that point to them, so that aliasing is visible; a nil reference is `none`.
-/

namespace Dexon

/-! ## Definitions -/

/-- A Go `byte`. -/
abbrev Byte := Fin 256

/-- Modelled from the spec: the constant `common.HashLength` is declared in
package `common`, which is not among the given sources. The spec speaks of a
content digest without giving its size; it is taken to be 32 bytes, and the
general theorems below hold for any size. -/
def HashLength : Nat := 32

/-- Modelled from the spec: the type `common.Hash` is declared in package
`common`, which is not among the given sources; `block.go` uses it as a byte
array (`b.Hash[:]`, comparison with `==`, zero value `common.Hash{}`). -/
abbrev common.Hash := { l : List Byte // l.length = HashLength }

/-- The zero value `common.Hash{}`: every byte is zero. -/
def common.Hash.zero : common.Hash := ⟨List.replicate HashLength 0, List.length_replicate _ _⟩

/-- The slice `h[:]` of all bytes of a hash. -/
def common.Hash.slice (h : common.Hash) : List Byte := h.1

/-- The type `crypto.Signature` of package `crypto` as `block.go` uses it: a
byte slice (`append(crypto.Signature(nil), ...)`). A slice is modelled by the
bytes it holds; the nil slice holds none. -/
abbrev crypto.Signature := List Byte

/-- Block process state, `type Status int`. -/
inductive Status where
  | BlockStatusInit
  | BlockStatusAcked
  | BlockStatusOrdering
  | BlockStatusFinal
  deriving DecidableEq, Repr

/-- A Go map object: finitely many entries, at most one per key. -/
abbrev GoMap (K E : Type) := AList (fun _ : K => E)

/-- A reference to a map object: `none` is the nil map, `some a` the map object
stored at index `a`. -/
abbrev MapRef := Option Nat

/-- The map objects of one map type, indexed by their address. -/
abbrev Store (K E : Type) := List (GoMap K E)

/-- The expression `make(map[K]E)`: a new empty map object at a fresh address. -/
def Store.make {K E : Type} (s : Store K E) : Nat × Store K E :=
  (s.length, s ++ [∅])

/-- The map object a reference denotes, if any. -/
def Store.get? {K E : Type} (s : Store K E) (r : MapRef) : Option (GoMap K E) :=
  match r with
  | none => none
  | some a => s[a]?

/-- The read `m[k]` with presence flag; reading the nil map finds nothing. -/
def Store.lookup {K E : Type} [DecidableEq K] (s : Store K E) (r : MapRef) (k : K) :
    Option E :=
  match s.get? r with
  | none => none
  | some m => m.lookup k

/-- The entries visited by `for k, v := range m`; the nil map has none. Go
leaves the order of the visit open; the model visits in stored order, and the
copy made by `Clone` has the same content for every order
(`foldl_insert_lookup_perm`). -/
def Store.range {K E : Type} (s : Store K E) (r : MapRef) : List (K × E) :=
  match s.get? r with
  | none => []
  | some m => m.entries.map (fun kv => (kv.1, kv.2))

/-- The assignment `m[k] = v`; it panics (`none`) on the nil map. -/
def Store.assign {K E : Type} [DecidableEq K] (s : Store K E) (r : MapRef) (k : K)
    (v : E) : Option (Store K E) :=
  match r with
  | none => none
  | some a =>
    match s[a]? with
    | none => none
    | some m => some (s.set a (m.insert k v))

/-- The statement `delete(m, k)`; a no-op on the nil map. -/
def Store.delete {K E : Type} [DecidableEq K] (s : Store K E) (r : MapRef) (k : K) :
    Store K E :=
  match r with
  | none => s
  | some a =>
    match s[a]? with
    | none => s
    | some m => s.set a (m.erase k)

/-- The loop `for k, v := range src { dst[k] = v }` run on the entries `kvs`. -/
def Store.copyInto {K E : Type} [DecidableEq K] (s : Store K E) (dst : MapRef) :
    List (K × E) → Option (Store K E)
  | [] => some s
  | kv :: kvs =>
    match s.assign dst kv.1 kv.2 with
    | none => none
    | some s1 => Store.copyInto s1 dst kvs

/-- Acking to the compaction chain. -/
structure CompactionChainAck where
  AckingBlockHash : common.Hash
  ConsensusSignature : crypto.Signature
  deriving DecidableEq

/-- Consensus information on the compaction chain; `Time` stands for
`time.Time`. -/
structure ConsensusInfo (Time : Type) where
  Timestamp : Time
  Height : Nat
  deriving DecidableEq

/-- A block, `type Block struct`. `VID` stands for `types.ValidatorID` and
`Time` for `time.Time`, both declared outside the given sources. The map
fields hold references into the heap. -/
structure Block (VID Time : Type) where
  ProposerID : VID
  ParentHash : common.Hash
  Hash : common.Hash
  Height : Nat
  Timestamps : MapRef
  Acks : MapRef
  CompactionChainAck : CompactionChainAck
  Signature : crypto.Signature
  ConsensusInfo : ConsensusInfo Time
  ConsensusInfoParentHash : common.Hash
  Ackeds : MapRef
  AckedValidators : MapRef
  Status : Status
  deriving DecidableEq

/-- The map objects a program holds, one store per map type used by `Block`. -/
structure Heap (VID Time : Type) where
  timeMaps : Store VID Time
  hashSets : Store common.Hash Unit
  validatorSets : Store VID Unit

/-- Every map reference of the block denotes an allocated map object or is
nil: the block is a value of a running Go program. -/
def Heap.Valid {VID Time : Type} (h : Heap VID Time) (b : Block VID Time) : Prop :=
  (∀ a, b.Timestamps = some a → a < h.timeMaps.length) ∧
  (∀ a, b.Acks = some a → a < h.hashSets.length) ∧
  (∀ a, b.Ackeds = some a → a < h.hashSets.length) ∧
  (∀ a, b.AckedValidators = some a → a < h.validatorSets.length)

/-- Clone returns a deep copy of a block. The result is `none` if an assignment
to a nil map panics. -/
def Block.Clone {VID Time : Type} [DecidableEq VID] (h : Heap VID Time)
    (b : Block VID Time) : Option (Block VID Time × Heap VID Time) :=
  let mt := h.timeMaps.make
  let ms := h.hashSets.make
  let bcopy0 : Block VID Time :=
    { ProposerID := b.ProposerID
      ParentHash := b.ParentHash
      Hash := b.Hash
      Height := b.Height
      Timestamps := some mt.1
      Acks := some ms.1
      CompactionChainAck :=
        { AckingBlockHash := b.CompactionChainAck.AckingBlockHash
          ConsensusSignature := [] }
      Signature := []
      ConsensusInfo :=
        { Timestamp := b.ConsensusInfo.Timestamp
          Height := b.ConsensusInfo.Height }
      ConsensusInfoParentHash := b.ConsensusInfoParentHash
      Ackeds := none
      AckedValidators := none
      Status := Status.BlockStatusInit }
  let bcopy : Block VID Time :=
    { bcopy0 with
      CompactionChainAck :=
        { bcopy0.CompactionChainAck with
          ConsensusSignature := [] ++ b.CompactionChainAck.ConsensusSignature } }
  match Store.copyInto mt.2 bcopy.Timestamps (Store.range mt.2 b.Timestamps) with
  | none => none
  | some ts =>
    match Store.copyInto ms.2 bcopy.Acks (Store.range ms.2 b.Acks) with
    | none => none
    | some hs => some (bcopy, { h with timeMaps := ts, hashSets := hs })

/-- IsGenesis checks if the block is a genesis block. -/
def Block.IsGenesis {VID Time : Type} (b : Block VID Time) : Bool :=
  b.Height == 0 && b.ParentHash == common.Hash.zero

/-! ### Sorting blocks by hash (`core/types/block.go`) -/

/-- The function `bytes.Compare` of the Go library: it compares two byte slices
lexicographically and returns 0 if they are equal, -1 if the first is smaller,
+1 if it is greater. -/
def bytes.Compare : List Byte → List Byte → Int
  | [], [] => 0
  | [], _ :: _ => -1
  | _ :: _, [] => 1
  | a :: as, b :: bs => if a < b then -1 else if b < a then 1 else bytes.Compare as bs

/-- A run-time panic of an index expression or of a dereference. -/
inductive RuntimePanic where
  | indexOutOfRange
  | nilDereference
  deriving DecidableEq, Repr

/-- ByHash is the helper type for sorting slice of blocks by hash, `[]*Block`:
an element is a pointer to a block, `none` being the nil pointer. -/
abbrev ByHash (VID Time : Type) := List (Option (Block VID Time))

/-- The index expression `b[i]`; an index is not negative here, and one that
is not below the length panics. -/
def ByHash.index {VID Time : Type} (b : ByHash VID Time) (i : Nat) :
    Except RuntimePanic (Option (Block VID Time)) :=
  match b[i]? with
  | none => Except.error RuntimePanic.indexOutOfRange
  | some p => Except.ok p

/-- The field read `b[i].Hash` through the pointer `b[i]`. -/
def ByHash.hashAt {VID Time : Type} (b : ByHash VID Time) (i : Nat) :
    Except RuntimePanic common.Hash :=
  match b.index i with
  | Except.error p => Except.error p
  | Except.ok none => Except.error RuntimePanic.nilDereference
  | Except.ok (some blk) => Except.ok blk.Hash

/-- The method `Len`. -/
def ByHash.Len {VID Time : Type} (b : ByHash VID Time) : Nat :=
  b.length

/-- The method `Less`. -/
def ByHash.Less {VID Time : Type} (b : ByHash VID Time) (i j : Nat) :
    Except RuntimePanic Bool :=
  match b.hashAt i with
  | Except.error p => Except.error p
  | Except.ok hi =>
    match b.hashAt j with
    | Except.error p => Except.error p
    | Except.ok hj => Except.ok (bytes.Compare hi.slice hj.slice == -1)

/-- The method `Swap`: `b[i], b[j] = b[j], b[i]`. Both index expressions on the
right are evaluated first, then the two elements are assigned. -/
def ByHash.Swap {VID Time : Type} (b : ByHash VID Time) (i j : Nat) :
    Except RuntimePanic (ByHash VID Time) :=
  match b.index j with
  | Except.error p => Except.error p
  | Except.ok bj =>
    match b.index i with
    | Except.error p => Except.error p
    | Except.ok bi => Except.ok ((b.set i bj).set j bi)

/-! ### Signature check (`core/crypto/ecdsa/ecdsa.go`) -/

/-- The type `crypto.Signature` of package `core/crypto` as `ecdsa.go` uses it:
a scheme name (the field `Type`, here `Typ`) and the signature bytes. -/
structure core.crypto.Signature where
  Typ : String
  Signature : List Byte
  deriving DecidableEq

/-- A public key of the ecdsa scheme, `type publicKey struct`. -/
structure publicKey where
  publicKey : List Byte
  deriving DecidableEq

/-- VerifySignature checks that the given public key created signature over
hash. `verify` stands for `ethcrypto.VerifySignature(pubkey, hash, sig)` of the
external library. -/
def publicKey.VerifySignature (verify : List Byte → List Byte → List Byte → Bool)
    (pub : Dexon.publicKey) (hash : common.Hash) (signature : core.crypto.Signature) :
    Bool :=
  let sig := signature.Signature
  let sig := if sig.length = 65 then sig.take 64 else sig
  verify pub.publicKey hash.slice sig

/-! ### Simulation network (`simulation/network.go`) -/

/-- The dynamic type of a value held in an `interface{}`, as far as the type
switch of `run` tells types apart: the five pointer types it names, and any
other type (numbered, so that different other types stay different). -/
inductive DynType where
  | Block
  | Vote
  | WitnessAck
  | DKGPrivateShare
  | DKGPartialSignature
  | other (id : Nat)
  deriving DecidableEq, Repr

/-- A message, a value of type `interface{}`: its dynamic type and its value.
`P` stands for the values (pointers to blocks, votes, ...). -/
structure Message (P : Type) where
  typ : DynType
  val : P
  deriving DecidableEq, Repr

/-- Modelled from the spec: `test.TransportEnvelope` is declared in package
`core/test`, which is not among the given sources; an envelope is a decoded
application message paired with delivery metadata (`D`). -/
structure TransportEnvelope (D P : Type) where
  delivery : D
  Msg : Message P

/-- A Go channel object of element type `α`: the buffered elements, oldest
first, the capacity given to `make`, and whether it has been closed. -/
structure Chan (α : Type) where
  buf : List α
  cap : Nat
  closed : Bool
  deriving DecidableEq, Repr

/-- The expression `make(chan T, n)`. -/
def Chan.make (α : Type) (n : Nat) : Chan α :=
  { buf := [], cap := n, closed := false }

/-- The two channel objects a network makes in `newNetwork`. -/
inductive ChanId where
  | consensus
  | node
  deriving DecidableEq, Repr

/-- A value of a run-time panic. -/
inductive Panic (ε : Type) where
  | closeOfNilChannel
  | closeOfClosedChannel
  | sendOnClosedChannel
  | unknownNetworkType
  | error (err : ε)
  deriving DecidableEq, Repr

/-- How a call ends: it returns a value, it panics, or it blocks (the calling
goroutine stays at the blocking statement). -/
inductive Outcome (ε ρ : Type) where
  | returned (r : ρ)
  | panicked (p : Panic ε)
  | blocked
  deriving DecidableEq, Repr

/-- The kinds of network of `config.NetworkType`, a string type declared
outside the given sources; `unknown` is any string that is none of the three
constants. -/
inductive NetworkType where
  | NetworkTypeTCPLocal
  | NetworkTypeTCP
  | NetworkTypeFake
  | unknown (name : String)
  deriving DecidableEq, Repr

/-- The networking configuration, `config.Networking`; `R` is the type of the
latency parameters, and `Typ` is the field `Type`. -/
structure Networking (R : Type) where
  Typ : NetworkType
  PeerServer : String
  Mean : R
  Sigma : R

/-- Modelled from the spec: `test.TransportClient` and its constructors are
declared in package `core/test`, which is not among the given sources. A
client has a state `σ`; `Broadcast`, `Send` and `Close` return an error or nil
together with the new state. `N` is the type of node identifiers, `R` of
latency parameters, `ε` of errors, `P` of message values. -/
structure TransportClient (σ ε N R P : Type) where
  NewTCPTransportClient : N → R → R → Bool → σ
  NewFakeTransportClient : N → R → R → σ
  Broadcast : σ → Message P → Option ε × σ
  Send : σ → N → Message P → Option ε × σ
  Close : σ → Option ε × σ

/-- The state of a network, `type network struct`, together with the two
channel objects its fields may point to. `ctxDone` tells whether the context
has been cancelled; a nil channel field is `none`. The channel
`fromTransport` is the input of `run` and is passed to it. -/
structure network (σ R P : Type) where
  cfg : Networking R
  ctxDone : Bool
  trans : σ
  toConsensus : Option ChanId
  toNode : Option ChanId
  consensusChan : Chan (Message P)
  nodeChan : Chan (Message P)

/-- The channel object an identifier names. -/
def network.chan {σ R P : Type} (n : network σ R P) : ChanId → Chan (Message P)
  | ChanId.consensus => n.consensusChan
  | ChanId.node => n.nodeChan

/-- Replace the channel object an identifier names. -/
def network.setChan {σ R P : Type} (n : network σ R P) (q : ChanId)
    (c : Chan (Message P)) : network σ R P :=
  match q with
  | ChanId.consensus => { n with consensusChan := c }
  | ChanId.node => { n with nodeChan := c }

/-- The send statement `ch <- x`: on a nil channel it blocks forever, on a
closed channel it panics, on a full buffer it blocks, otherwise the element is
appended to the buffer. -/
def network.send {σ R P ε : Type} (n : network σ R P) (ch : Option ChanId)
    (x : Message P) : Outcome ε (network σ R P) :=
  match ch with
  | none => Outcome.blocked
  | some q =>
    if (n.chan q).closed then Outcome.panicked Panic.sendOnClosedChannel
    else if (n.chan q).buf.length < (n.chan q).cap then
      Outcome.returned (n.setChan q { n.chan q with buf := (n.chan q).buf ++ [x] })
    else Outcome.blocked

/-- A receive `<-ch` by a reader of the channel object `q` that finds an element
buffered: the oldest element leaves the buffer. With an empty buffer there is
nothing to receive (`none`). -/
def network.recv {σ R P : Type} (n : network σ R P) (q : ChanId) :
    Option (Message P × network σ R P) :=
  match (n.chan q).buf with
  | [] => none
  | x :: rest => some (x, n.setChan q { n.chan q with buf := rest })

/-- The call `close(ch)`: it panics on a nil and on a closed channel. -/
def network.closeChan {σ R P ε : Type} (n : network σ R P) (ch : Option ChanId) :
    Except (Panic ε) (network σ R P) :=
  match ch with
  | none => Except.error Panic.closeOfNilChannel
  | some q =>
    if (n.chan q).closed then Except.error Panic.closeOfClosedChannel
    else Except.ok (n.setChan q { n.chan q with closed := true })

/-- The function newNetwork: sets up the network of a node. It panics on an
unknown network type. -/
def newNetwork {σ ε N R P : Type} (T : TransportClient σ ε N R P) (nID : N)
    (cfg : Networking R) : Except (Panic ε) (network σ R P) :=
  let mk (t : σ) : network σ R P :=
    { cfg := cfg
      ctxDone := false
      trans := t
      toConsensus := some ChanId.consensus
      toNode := some ChanId.node
      consensusChan := Chan.make (Message P) 1000
      nodeChan := Chan.make (Message P) 1000 }
  match cfg.Typ with
  | NetworkType.NetworkTypeTCPLocal =>
    Except.ok (mk (T.NewTCPTransportClient nID cfg.Mean cfg.Sigma true))
  | NetworkType.NetworkTypeTCP =>
    Except.ok (mk (T.NewTCPTransportClient nID cfg.Mean cfg.Sigma false))
  | NetworkType.NetworkTypeFake =>
    Except.ok (mk (T.NewFakeTransportClient nID cfg.Mean cfg.Sigma))
  | NetworkType.unknown _ => Except.error Panic.unknownNetworkType

/-- The body shared by the broadcast methods: one call of the transport's
`Broadcast`, and a panic with its error if it returns one. -/
def network.broadcast {σ ε N R P : Type} (T : TransportClient σ ε N R P)
    (n : network σ R P) (message : Message P) : Outcome ε Unit × network σ R P :=
  match T.Broadcast n.trans message with
  | (some err, t) => (Outcome.panicked (Panic.error err), { n with trans := t })
  | (none, t) => (Outcome.returned (), { n with trans := t })

/-- BroadcastVote implements core.Network interface. -/
def network.BroadcastVote {σ ε N R P : Type} (T : TransportClient σ ε N R P)
    (n : network σ R P) (vote : P) : Outcome ε Unit × network σ R P :=
  match T.Broadcast n.trans ⟨DynType.Vote, vote⟩ with
  | (some err, t) => (Outcome.panicked (Panic.error err), { n with trans := t })
  | (none, t) => (Outcome.returned (), { n with trans := t })

/-- BroadcastBlock implements core.Network interface. -/
def network.BroadcastBlock {σ ε N R P : Type} (T : TransportClient σ ε N R P)
    (n : network σ R P) (block : P) : Outcome ε Unit × network σ R P :=
  match T.Broadcast n.trans ⟨DynType.Block, block⟩ with
  | (some err, t) => (Outcome.panicked (Panic.error err), { n with trans := t })
  | (none, t) => (Outcome.returned (), { n with trans := t })

/-- BroadcastWitnessAck implements core.Network interface. -/
def network.BroadcastWitnessAck {σ ε N R P : Type} (T : TransportClient σ ε N R P)
    (n : network σ R P) (witnessAck : P) : Outcome ε Unit × network σ R P :=
  match T.Broadcast n.trans ⟨DynType.WitnessAck, witnessAck⟩ with
  | (some err, t) => (Outcome.panicked (Panic.error err), { n with trans := t })
  | (none, t) => (Outcome.returned (), { n with trans := t })

/-- SendDKGPrivateShare implements core.Network interface. -/
def network.SendDKGPrivateShare {σ ε N R P : Type} (T : TransportClient σ ε N R P)
    (n : network σ R P) (recv : N) (prvShare : P) : Outcome ε Unit × network σ R P :=
  match T.Send n.trans recv ⟨DynType.DKGPrivateShare, prvShare⟩ with
  | (some err, t) => (Outcome.panicked (Panic.error err), { n with trans := t })
  | (none, t) => (Outcome.returned (), { n with trans := t })

/-- BroadcastDKGPrivateShare implements core.Network interface. -/
def network.BroadcastDKGPrivateShare {σ ε N R P : Type} (T : TransportClient σ ε N R P)
    (n : network σ R P) (prvShare : P) : Outcome ε Unit × network σ R P :=
  match T.Broadcast n.trans ⟨DynType.DKGPrivateShare, prvShare⟩ with
  | (some err, t) => (Outcome.panicked (Panic.error err), { n with trans := t })
  | (none, t) => (Outcome.returned (), { n with trans := t })

/-- The dispatcher `disp` of `run`: to consensus or node. -/
def network.disp {σ R P ε D : Type} (n : network σ R P) (e : TransportEnvelope D P) :
    Outcome ε (network σ R P) :=
  match e.Msg.typ with
  | DynType.Block => n.send n.toConsensus e.Msg
  | DynType.Vote => n.send n.toConsensus e.Msg
  | DynType.WitnessAck => n.send n.toConsensus e.Msg
  | DynType.DKGPrivateShare => n.send n.toConsensus e.Msg
  | DynType.DKGPartialSignature => n.send n.toConsensus e.Msg
  | DynType.other _ => n.send n.toNode e.Msg

/-- What the second `select` of the main loop yields: the context is done, an
envelope arrives, or `fromTransport` is found closed. -/
inductive SelectEvent (D P : Type) where
  | done
  | recv (e : TransportEnvelope D P)
  | closed

/-- The main loop of `run` on the events its `select` yields in turn. The loop
ends (`returned`) when the context is done or `fromTransport` is closed, and
also when the listed events are used up; it stops where `disp` panics or
blocks. -/
def network.run {σ R P ε D : Type} (n : network σ R P) :
    List (SelectEvent D P) → Outcome ε Unit × network σ R P
  | [] => (Outcome.returned (), n)
  | ev :: evs =>
    if n.ctxDone then (Outcome.returned (), n)
    else
      match ev with
      | SelectEvent.done => (Outcome.returned (), n)
      | SelectEvent.closed => (Outcome.returned (), n)
      | SelectEvent.recv e =>
        match (n.disp e : Outcome ε (network σ R P)) with
        | Outcome.returned n1 => network.run n1 evs
        | Outcome.panicked p => (Outcome.panicked p, n)
        | Outcome.blocked => (Outcome.blocked, n)

/-- Close stop the network. -/
def network.Close {σ ε N R P : Type} (T : TransportClient σ ε N R P)
    (n : network σ R P) : Outcome ε (Option ε) × network σ R P :=
  let n0 := { n with ctxDone := true }
  match (n0.closeChan n0.toConsensus : Except (Panic ε) (network σ R P)) with
  | Except.error p => (Outcome.panicked p, n0)
  | Except.ok n1 =>
    let n2 := { n1 with toConsensus := none }
    match (n2.closeChan n2.toNode : Except (Panic ε) (network σ R P)) with
    | Except.error p => (Outcome.panicked p, n2)
    | Except.ok n3 =>
      let n4 := { n3 with toNode := none }
      match T.Close n4.trans with
      | (err, t) => (Outcome.returned err, { n4 with trans := t })

/-- A call made to a transport client. -/
inductive Call (N P : Type) where
  | Broadcast (msg : Message P)
  | Send (recv : N) (msg : Message P)
  | Close
  deriving DecidableEq, Repr

/-- The transport client `T` with a log: every call of `Broadcast`, `Send` and
`Close` is passed to `T` and written at the end of the log. -/
def TransportClient.logged {σ ε N R P : Type} (T : TransportClient σ ε N R P) :
    TransportClient (σ × List (Call N P)) ε N R P :=
  { NewTCPTransportClient := fun nID mean sigma loc =>
      (T.NewTCPTransportClient nID mean sigma loc, [])
    NewFakeTransportClient := fun nID mean sigma =>
      (T.NewFakeTransportClient nID mean sigma, [])
    Broadcast := fun s msg => ((T.Broadcast s.1 msg).1, (T.Broadcast s.1 msg).2,
      s.2 ++ [Call.Broadcast msg])
    Send := fun s recv msg => ((T.Send s.1 recv msg).1, (T.Send s.1 recv msg).2,
      s.2 ++ [Call.Send recv msg])
    Close := fun s => ((T.Close s.1).1, (T.Close s.1).2, s.2 ++ [Call.Close]) }

/-- The states a network can be in: the one `newNetwork` returns, and every
state reached from it by a delivery of the dispatcher that returns, by a
reader taking an element from one of the two queues, by `Close` (however it
ends) and by the broadcast and send methods (however they end). -/
inductive network.Reachable {σ ε N R P : Type} (D : Type) (T : TransportClient σ ε N R P)
    (nID : N) (cfg : Networking R) : network σ R P → Prop where
  | init (n : network σ R P) : newNetwork T nID cfg = Except.ok n →
      network.Reachable D T nID cfg n
  | disp (n n1 : network σ R P) (e : TransportEnvelope D P) :
      network.Reachable D T nID cfg n →
      (n.disp e : Outcome ε (network σ R P)) = Outcome.returned n1 →
      network.Reachable D T nID cfg n1
  | recv (n n1 : network σ R P) (q : ChanId) (x : Message P) :
      network.Reachable D T nID cfg n → n.recv q = some (x, n1) →
      network.Reachable D T nID cfg n1
  | close (n : network σ R P) : network.Reachable D T nID cfg n →
      network.Reachable D T nID cfg (network.Close T n).2
  | broadcastVote (n : network σ R P) (v : P) : network.Reachable D T nID cfg n →
      network.Reachable D T nID cfg (network.BroadcastVote T n v).2
  | broadcastBlock (n : network σ R P) (v : P) : network.Reachable D T nID cfg n →
      network.Reachable D T nID cfg (network.BroadcastBlock T n v).2
  | broadcastWitnessAck (n : network σ R P) (v : P) : network.Reachable D T nID cfg n →
      network.Reachable D T nID cfg (network.BroadcastWitnessAck T n v).2
  | sendDKGPrivateShare (n : network σ R P) (recv : N) (v : P) :
      network.Reachable D T nID cfg n →
      network.Reachable D T nID cfg (network.SendDKGPrivateShare T n recv v).2
  | broadcastDKGPrivateShare (n : network σ R P) (v : P) :
      network.Reachable D T nID cfg n →
      network.Reachable D T nID cfg (network.BroadcastDKGPrivateShare T n v).2

/-- The invariant of the reachable states: both queues were made with capacity
1000 and hold no more than that, and a queue field that is not nil points to
its own queue, which is open. -/
def network.Inv {σ R P : Type} (n : network σ R P) : Prop :=
  (n.consensusChan.cap = 1000 ∧ n.nodeChan.cap = 1000) ∧
  (n.consensusChan.buf.length ≤ 1000 ∧ n.nodeChan.buf.length ≤ 1000) ∧
  (∀ q, n.toConsensus = some q → q = ChanId.consensus ∧ n.consensusChan.closed = false) ∧
  (∀ q, n.toNode = some q → q = ChanId.node ∧ n.nodeChan.closed = false)

/-! ### Blocks per node (`cmd/dexcon-simulation-with-scheduler/main.go`) -/

/-- Rounding of a rational to the nearest integer, a tie going to the even
integer: the rounding of IEEE 754 arithmetic, which Go's `float64` follows. -/
def roundHalfEven (x : ℚ) : ℤ :=
  if x - ⌊x⌋ < 1 / 2 then ⌊x⌋
  else if 1 / 2 < x - ⌊x⌋ then ⌊x⌋ + 1
  else if ⌊x⌋ % 2 = 0 then ⌊x⌋ else ⌊x⌋ + 1

/-- The `float64` value nearest to a non-negative rational `x`: a 53-bit
significand times a power of two, the significand rounded to nearest, ties to
even. This is the result of the conversion `float64(n)` of an integer and of a
`float64` operation whose exact result is `x`, for values in the normal range
(no overflow, no subnormal numbers), which holds all quotients of integers
below `2 ^ 64`. -/
def float64 (x : ℚ) : ℚ :=
  if x ≤ 0 then 0
  else (roundHalfEven (x / (2 : ℚ) ^ (Int.log 2 x - 52)) : ℚ) * (2 : ℚ) ^ (Int.log 2 x - 52)

/-- The value `blockPerNode` of `main`:
`int(math.Ceil(float64(cfg.Node.MaxBlock) / float64(cfg.Node.Num)))`. The two
configuration fields are integers that are not negative (their types are
declared outside the given sources); `math.Ceil` is exact, and so is the
conversion to `int` of the integral value it returns, as long as that value
fits an `int`. -/
def blockPerNode (maxBlock num : ℕ) : ℤ :=
  ⌈float64 (float64 maxBlock / float64 num)⌉

/-! ### Concrete values for the examples -/

/-- A transport client whose state counts the messages it has taken; it
refuses (with error 1) a message whose value is 0, and closes without error. -/
def exampleTransport : TransportClient Nat Nat Nat Nat Nat :=
  { NewTCPTransportClient := fun _ _ _ _ => 0
    NewFakeTransportClient := fun _ _ _ => 0
    Broadcast := fun s msg => if msg.val = 0 then (some 1, s) else (none, s + 1)
    Send := fun s _ msg => if msg.val = 0 then (some 1, s) else (none, s + 1)
    Close := fun s => (none, s) }

/-- A configuration of the fake network. -/
def exampleConfig : Networking Nat :=
  { Typ := NetworkType.NetworkTypeFake, PeerServer := "", Mean := 0, Sigma := 0 }

/-- The network `newNetwork` returns for node 0 on `exampleConfig` with the
logged `exampleTransport`, holding `k` copies of the message `m` in its
to-consensus queue. -/
def exampleNetwork (k : Nat) (m : Message Nat) : network (Nat × List (Call Nat Nat)) Nat Nat :=
  { cfg := exampleConfig
    ctxDone := false
    trans := (0, [])
    toConsensus := some ChanId.consensus
    toNode := some ChanId.node
    consensusChan := { buf := List.replicate k m, cap := 1000, closed := false }
    nodeChan := { buf := [], cap := 1000, closed := false } }

/-- The hash all of whose bytes are `x`. -/
def common.Hash.fill (x : Byte) : common.Hash :=
  ⟨List.replicate HashLength x, List.length_replicate _ _⟩

/-- A heap holding one timestamp map and one set of acked hashes. -/
def exampleHeap : Heap Nat Nat :=
  { timeMaps := [(∅ : GoMap Nat Nat).insert 7 100]
    hashSets := [(∅ : GoMap common.Hash Unit).insert (common.Hash.fill 3) ()]
    validatorSets := [] }

/-- A signed, final block of height 5 whose maps are the two maps of
`exampleHeap`. -/
def exampleBlock : Block Nat Nat :=
  { ProposerID := 7
    ParentHash := common.Hash.fill 1
    Hash := common.Hash.fill 2
    Height := 5
    Timestamps := some 0
    Acks := some 0
    CompactionChainAck :=
      { AckingBlockHash := common.Hash.fill 4
        ConsensusSignature := [9, 8] }
    Signature := [1]
    ConsensusInfo := { Timestamp := 100, Height := 2 }
    ConsensusInfoParentHash := common.Hash.fill 5
    Ackeds := none
    AckedValidators := none
    Status := Status.BlockStatusFinal }

/-- The example block with another hash: all bytes of the hash are `x`. -/
def exampleBlockWith (x : Byte) : Block Nat Nat :=
  { exampleBlock with Hash := common.Hash.fill x }

/-- Three blocks, out of hash order. -/
def exampleBlocks : ByHash Nat Nat :=
  [some (exampleBlockWith 2), some (exampleBlockWith 1), some (exampleBlockWith 3)]

/-- A verifier standing for the external library in the examples: it accepts
exactly the 64-byte signatures whose first byte is the first byte of the key. -/
def exampleVerify (pubkey _hash sig : List Byte) : Bool :=
  sig.length == 64 && sig.head? == pubkey.head?

/-! ## Theorems -/

/-- A hash is the zero hash exactly when each of its bytes is zero. -/
theorem common.Hash.eq_zero_iff (x : common.Hash) :
    x = common.Hash.zero ↔ ∀ i (hi : i < HashLength), x.1.get ⟨i, x.2.symm ▸ hi⟩ = 0 := by
  constructor
  · intro hx i hi
    subst hx
    simp [common.Hash.zero]
  · intro hx
    apply Subtype.ext
    apply List.ext_get
    · simp [common.Hash.zero, x.2]
    · intro n h1 h2
      have hn : n < HashLength := x.2 ▸ h1
      have := hx n hn
      simp only [List.get_eq_getElem] at this ⊢
      simp [common.Hash.zero, this]

/-- C1: for every block, IsGenesis is true exactly when Height is 0 and every
byte of ParentHash is zero; it is false exactly when Height is not 0 or
ParentHash is not the zero hash; and two blocks with the same Height and
ParentHash give the same answer, whatever their other fields are. -/
theorem IsGenesis_iff {VID Time : Type} (b : Block VID Time) :
    (b.IsGenesis = true ↔ b.Height = 0 ∧ ∀ i (hi : i < HashLength),
      b.ParentHash.1.get ⟨i, b.ParentHash.2.symm ▸ hi⟩ = 0) ∧
    (b.IsGenesis = false ↔ b.Height ≠ 0 ∨ b.ParentHash ≠ common.Hash.zero) ∧
    (∀ b2 : Block VID Time, b2.Height = b.Height → b2.ParentHash = b.ParentHash →
      b2.IsGenesis = b.IsGenesis) := by
  refine ⟨?_, ?_, ?_⟩
  · rw [← common.Hash.eq_zero_iff]
    simp [Block.IsGenesis]
  · rw [← Bool.not_eq_true, ne_eq, ne_eq, ← not_and_or]
    simp [Block.IsGenesis]
  · intro b2 h1 h2
    simp [Block.IsGenesis, h1, h2]

/-! ### Map stores -/

/-- Writing back the element already stored at an index changes nothing. -/
theorem list_set_getElem_same {α : Type} (l : List α) (a : Nat) (h : a < l.length) :
    l.set a l[a] = l := by
  apply List.ext_getElem?
  intro i
  by_cases hi : a = i
  · subst hi; simp [h]
  · simp [List.getElem?_set_ne hi]

/-- Copying entries into an allocated map succeeds and only rewrites that map
object: it becomes the old object with the entries inserted in turn. -/
theorem Store.copyInto_eq {K E : Type} [DecidableEq K] (kvs : List (K × E)) :
    ∀ (s : Store K E) (a : Nat) (m0 : GoMap K E), s[a]? = some m0 →
      Store.copyInto s (some a) kvs =
        some (s.set a (kvs.foldl (fun acc kv => acc.insert kv.1 kv.2) m0)) := by
  induction kvs with
  | nil =>
    intro s a m0 h
    obtain ⟨ha, hm⟩ := List.getElem?_eq_some.mp h
    simp [Store.copyInto, ← hm, list_set_getElem_same s a ha]
  | cons kv kvs ih =>
    intro s a m0 h
    obtain ⟨ha, _⟩ := List.getElem?_eq_some.mp h
    have h1 : (s.set a (m0.insert kv.1 kv.2))[a]? = some (m0.insert kv.1 kv.2) :=
      List.getElem?_set_self ha
    simp only [Store.copyInto, Store.assign, h, List.foldl_cons]
    rw [ih _ a _ h1, List.set_set]

/-- Inserting the entries of a duplicate-free association list one after the
other: a key of the list gets the value the list gives it, any other key keeps
the value it had. -/
theorem foldl_insert_lookup {K E : Type} [DecidableEq K] (k : K)
    (l : List (Sigma fun _ : K => E)) :
    l.NodupKeys → ∀ m0 : GoMap K E,
      ((l.map fun kv => (kv.1, kv.2)).foldl (fun acc kv => acc.insert kv.1 kv.2) m0).lookup k =
        ((List.dlookup k l).orElse fun _ => m0.lookup k) := by
  induction l with
  | nil => intro _ m0; simp
  | cons kv l ih =>
    intro hnd m0
    obtain ⟨hk, hl⟩ := List.nodupKeys_cons.mp hnd
    simp only [List.map_cons, List.foldl_cons]
    rw [ih hl]
    by_cases hkk : k = kv.1
    · subst hkk
      obtain ⟨k1, v1⟩ := kv
      have hn : List.dlookup k1 l = none := List.dlookup_eq_none.mpr hk
      simp [AList.lookup_insert, hn]
    · rw [AList.lookup_insert_ne hkk, List.dlookup_cons_ne _ _ hkk]

/-- The order in which a range visits the entries does not matter for the copy:
visiting a duplicate-free list of entries in any other order gives a map with
the same content. -/
theorem foldl_insert_lookup_perm {K E : Type} [DecidableEq K] (k : K)
    (l1 l2 : List (Sigma fun _ : K => E)) (hn : l1.NodupKeys) (hp : l1.Perm l2)
    (m0 : GoMap K E) :
    ((l1.map fun kv => (kv.1, kv.2)).foldl (fun acc kv => acc.insert kv.1 kv.2) m0).lookup k =
      ((l2.map fun kv => (kv.1, kv.2)).foldl (fun acc kv => acc.insert kv.1 kv.2) m0).lookup k := by
  rw [foldl_insert_lookup k l1 hn m0, foldl_insert_lookup k l2 ((List.perm_nodupKeys hp).mp hn) m0,
    List.perm_dlookup k hn ((List.perm_nodupKeys hp).mp hn) hp]

/-- A map made by `make` has no entries, so ranging over any reference visits
the same entries before and after the allocation. -/
theorem Store.range_make {K E : Type} (s : Store K E) (r : MapRef) :
    Store.range (Store.make s).2 r = Store.range s r := by
  cases r with
  | none => rfl
  | some a =>
    simp only [Store.range, Store.make, Store.get?]
    rcases Nat.lt_trichotomy a s.length with hlt | heq | hgt
    · rw [List.getElem?_append_left hlt]
    · subst heq
      simp
    · have h1 : s[a]? = none := List.getElem?_eq_none (Nat.le_of_lt hgt)
      have h2 : (s ++ [(∅ : GoMap K E)])[a]? = none :=
        List.getElem?_eq_none (by simp; omega)
      rw [h1, h2]

/-- Inserting the entries visited by a range over `r` into an empty map gives a
map with the same content as `r`. -/
theorem Store.lookup_foldl_range {K E : Type} [DecidableEq K] (s : Store K E) (r : MapRef)
    (k : K) :
    ((Store.range s r).foldl (fun acc kv => acc.insert kv.1 kv.2) (∅ : GoMap K E)).lookup k =
      Store.lookup s r k := by
  unfold Store.range Store.lookup
  cases hg : Store.get? s r with
  | none => simp
  | some m =>
    simp only []
    rw [foldl_insert_lookup k m.entries m.nodupKeys ∅]
    cases hd : List.dlookup k m.entries <;> simp [AList.lookup, hd]

/-- The block and the heap `Clone` returns, in closed form: `Clone` always
returns. -/
theorem Block.Clone_eq {VID Time : Type} [DecidableEq VID] (h : Heap VID Time)
    (b : Block VID Time) :
    Block.Clone h b = some (
      { ProposerID := b.ProposerID
        ParentHash := b.ParentHash
        Hash := b.Hash
        Height := b.Height
        Timestamps := some h.timeMaps.length
        Acks := some h.hashSets.length
        CompactionChainAck :=
          { AckingBlockHash := b.CompactionChainAck.AckingBlockHash
            ConsensusSignature := b.CompactionChainAck.ConsensusSignature }
        Signature := []
        ConsensusInfo := b.ConsensusInfo
        ConsensusInfoParentHash := b.ConsensusInfoParentHash
        Ackeds := none
        AckedValidators := none
        Status := Status.BlockStatusInit },
      { timeMaps := (h.timeMaps ++ [∅]).set h.timeMaps.length
          ((Store.range h.timeMaps b.Timestamps).foldl
            (fun (acc : GoMap VID Time) (kv : VID × Time) => acc.insert kv.1 kv.2) ∅)
        hashSets := (h.hashSets ++ [∅]).set h.hashSets.length
          ((Store.range h.hashSets b.Acks).foldl
            (fun (acc : GoMap common.Hash Unit) (kv : common.Hash × Unit) =>
              acc.insert kv.1 kv.2) ∅)
        validatorSets := h.validatorSets }) := by
  have ht : (Store.make h.timeMaps).2[h.timeMaps.length]? = some ∅ := by
    simp [Store.make]
  have hs : (Store.make h.hashSets).2[h.hashSets.length]? = some ∅ := by
    simp [Store.make]
  simp only [Block.Clone]
  rw [show (Store.make h.timeMaps).1 = h.timeMaps.length from rfl,
    show (Store.make h.hashSets).1 = h.hashSets.length from rfl,
    Store.copyInto_eq _ _ _ _ ht, Store.copyInto_eq _ _ _ _ hs,
    Store.range_make, Store.range_make]
  rfl

/-! ### Clone -/

/-- A freshly made map is separate storage: writing to it or deleting from it
leaves the object every allocated reference denotes as it was. -/
theorem Store.fresh_separate {K E : Type} [DecidableEq K] (s : Store K E) (r : MapRef)
    (hr : ∀ a, r = some a → a < s.length) (M : GoMap K E) :
    (some s.length : MapRef) ≠ r ∧
    Store.get? ((s ++ [∅]).set s.length M) r = Store.get? s r ∧
    Store.get? ((s ++ [∅]).set s.length M) (some s.length) = some M ∧
    (∀ k v, ∃ s2, Store.assign ((s ++ [∅]).set s.length M) (some s.length) k v = some s2 ∧
      Store.lookup s2 (some s.length) k = some v ∧ Store.get? s2 r = Store.get? s r) ∧
    (∀ k, Store.lookup (Store.delete ((s ++ [∅]).set s.length M) (some s.length) k)
        (some s.length) k = none ∧
      Store.get? (Store.delete ((s ++ [∅]).set s.length M) (some s.length) k) r =
        Store.get? s r) := by
  have hlen : s.length < (s ++ [(∅ : GoMap K E)]).length := by simp
  have hne : (some s.length : MapRef) ≠ r := by
    intro he
    exact absurd (hr _ he.symm) (Nat.lt_irrefl _)
  have hget : ∀ (X : GoMap K E), Store.get? ((s ++ [∅]).set s.length X) r = Store.get? s r := by
    intro X
    cases r with
    | none => rfl
    | some a =>
      have ha := hr a rfl
      simp only [Store.get?]
      rw [List.getElem?_set_ne (Nat.ne_of_gt ha), List.getElem?_append_left ha]
  have hM : ((s ++ [(∅ : GoMap K E)]).set s.length M)[s.length]? = some M :=
    List.getElem?_set_self hlen
  refine ⟨hne, hget M, hM, ?_, ?_⟩
  · intro k v
    refine ⟨(s ++ [∅]).set s.length (M.insert k v), ?_, ?_, hget _⟩
    · simp only [Store.assign, hM, List.set_set]
    · simp only [Store.lookup, Store.get?]
      rw [List.getElem?_set_self hlen]
      exact AList.lookup_insert M
  · intro k
    simp only [Store.delete, hM, List.set_set]
    refine ⟨?_, hget _⟩
    simp only [Store.lookup, Store.get?]
    rw [List.getElem?_set_self hlen]
    exact AList.lookup_erase k M

/-- C3: for a block whose map references are allocated, Clone returns a block
whose Acks and Timestamps are new non-nil maps, different from the original
references, holding exactly the original keys and entries; Clone itself leaves
the original map objects untouched; and assigning any key to, or deleting any
key from, the clone's Acks (the clone's Timestamps) succeeds, is visible in
the clone, and leaves the map object of b.Acks (b.Timestamps) unchanged. -/
theorem Clone_maps_separate {VID Time : Type} [DecidableEq VID] (h : Heap VID Time)
    (b : Block VID Time) (hv : h.Valid b) :
    ∃ bc h', Block.Clone h b = some (bc, h') ∧
      (bc.Acks ≠ none ∧ bc.Acks ≠ b.Acks ∧
        bc.Timestamps ≠ none ∧ bc.Timestamps ≠ b.Timestamps) ∧
      (∀ k, Store.lookup h'.hashSets bc.Acks k = Store.lookup h.hashSets b.Acks k) ∧
      (∀ k, Store.lookup h'.timeMaps bc.Timestamps k =
        Store.lookup h.timeMaps b.Timestamps k) ∧
      (Store.get? h'.hashSets b.Acks = Store.get? h.hashSets b.Acks ∧
        Store.get? h'.timeMaps b.Timestamps = Store.get? h.timeMaps b.Timestamps) ∧
      (∀ x, ∃ hs, Store.assign h'.hashSets bc.Acks x () = some hs ∧
        Store.lookup hs bc.Acks x = some () ∧
        Store.get? hs b.Acks = Store.get? h.hashSets b.Acks) ∧
      (∀ x, Store.lookup (Store.delete h'.hashSets bc.Acks x) bc.Acks x = none ∧
        Store.get? (Store.delete h'.hashSets bc.Acks x) b.Acks =
          Store.get? h.hashSets b.Acks) ∧
      (∀ v t, ∃ ts, Store.assign h'.timeMaps bc.Timestamps v t = some ts ∧
        Store.lookup ts bc.Timestamps v = some t ∧
        Store.get? ts b.Timestamps = Store.get? h.timeMaps b.Timestamps) ∧
      (∀ v, Store.lookup (Store.delete h'.timeMaps bc.Timestamps v) bc.Timestamps v = none ∧
        Store.get? (Store.delete h'.timeMaps bc.Timestamps v) b.Timestamps =
          Store.get? h.timeMaps b.Timestamps) := by
  obtain ⟨hvt, hva, _, _⟩ := hv
  obtain ⟨a1, a2, a3, a4, a5⟩ := Store.fresh_separate h.hashSets b.Acks hva
    ((Store.range h.hashSets b.Acks).foldl
      (fun (acc : GoMap common.Hash Unit) (kv : common.Hash × Unit) =>
        acc.insert kv.1 kv.2) ∅)
  obtain ⟨t1, t2, t3, t4, t5⟩ := Store.fresh_separate h.timeMaps b.Timestamps hvt
    ((Store.range h.timeMaps b.Timestamps).foldl
      (fun (acc : GoMap VID Time) (kv : VID × Time) => acc.insert kv.1 kv.2) ∅)
  refine ⟨_, _, Block.Clone_eq h b, ⟨by simp, a1, by simp, t1⟩, ?_, ?_, ⟨a2, t2⟩,
    fun x => a4 x (), a5, t4, t5⟩
  · intro k
    show Store.lookup _ (some h.hashSets.length) k = _
    unfold Store.lookup
    rw [a3]
    exact Store.lookup_foldl_range h.hashSets b.Acks k
  · intro k
    show Store.lookup _ (some h.timeMaps.length) k = _
    unfold Store.lookup
    rw [t3]
    exact Store.lookup_foldl_range h.timeMaps b.Timestamps k

/-- The example block is a value of the example heap. -/
theorem exampleHeap_valid : exampleHeap.Valid exampleBlock := by
  refine ⟨?_, ?_, ?_, ?_⟩ <;> intro a ha <;> simp [exampleBlock] at ha <;>
    simp [← ha, exampleHeap]

/-- C3, at the example block: the clone's maps are new maps. -/
theorem Clone_maps_separate_witness :
    exampleHeap.Valid exampleBlock ∧
    ∃ bc h', Block.Clone exampleHeap exampleBlock = some (bc, h') ∧
      bc.Acks ≠ exampleBlock.Acks ∧ bc.Timestamps ≠ exampleBlock.Timestamps :=
  ⟨exampleHeap_valid,
    match Clone_maps_separate exampleHeap exampleBlock exampleHeap_valid with
    | ⟨bc, h', e, ⟨_, ha, _, ht⟩, _⟩ => ⟨bc, h', e, ha, ht⟩⟩

/-- Clone copies every serialized field but Signature: the clone has the
ProposerID, ParentHash, Hash, Height, CompactionChainAck, ConsensusInfo and
ConsensusInfoParentHash of the block, and its Timestamps and Acks hold the
same entries. -/
theorem Clone_copies_fields {VID Time : Type} [DecidableEq VID] (h : Heap VID Time)
    (b : Block VID Time) :
    ∃ bc h', Block.Clone h b = some (bc, h') ∧
      bc.ProposerID = b.ProposerID ∧ bc.ParentHash = b.ParentHash ∧ bc.Hash = b.Hash ∧
      bc.Height = b.Height ∧
      (∀ k, Store.lookup h'.timeMaps bc.Timestamps k =
        Store.lookup h.timeMaps b.Timestamps k) ∧
      (∀ k, Store.lookup h'.hashSets bc.Acks k = Store.lookup h.hashSets b.Acks k) ∧
      bc.CompactionChainAck.AckingBlockHash = b.CompactionChainAck.AckingBlockHash ∧
      bc.CompactionChainAck.ConsensusSignature = b.CompactionChainAck.ConsensusSignature ∧
      bc.ConsensusInfo.Timestamp = b.ConsensusInfo.Timestamp ∧
      bc.ConsensusInfo.Height = b.ConsensusInfo.Height ∧
      bc.ConsensusInfoParentHash = b.ConsensusInfoParentHash := by
  refine ⟨_, _, Block.Clone_eq h b, rfl, rfl, rfl, rfl, ?_, ?_, rfl, rfl, rfl, rfl, rfl⟩
  · intro k
    show Store.lookup _ (some h.timeMaps.length) k = _
    simp only [Store.lookup, Store.get?]
    rw [List.getElem?_set_self (by simp)]
    exact Store.lookup_foldl_range h.timeMaps b.Timestamps k
  · intro k
    show Store.lookup _ (some h.hashSets.length) k = _
    simp only [Store.lookup, Store.get?]
    rw [List.getElem?_set_self (by simp)]
    exact Store.lookup_foldl_range h.hashSets b.Acks k

/-- C2, at the example block, whose Signature is the one byte 1: Clone returns
a block with an empty Signature, so the clone does not agree with the block on
the Signature field. -/
theorem Clone_drops_Signature :
    exampleBlock.Signature = [1] ∧
    ∃ bc h', Block.Clone exampleHeap exampleBlock = some (bc, h') ∧
      bc.Signature = [] ∧ bc.Signature ≠ exampleBlock.Signature :=
  ⟨rfl, _, _, Block.Clone_eq exampleHeap exampleBlock, rfl, by decide⟩

/-! ### Network -/

/-- The main loop hands every envelope it receives to the dispatcher, and goes
on when the dispatcher returns. -/
theorem network.run_recv {σ R P ε D : Type} (n : network σ R P) (e : TransportEnvelope D P)
    (evs : List (SelectEvent D P)) (hd : n.ctxDone = false) :
    (n.run (SelectEvent.recv e :: evs) : Outcome ε Unit × network σ R P) =
      match (n.disp e : Outcome ε (network σ R P)) with
      | Outcome.returned n1 => n1.run evs
      | Outcome.panicked p => (Outcome.panicked p, n)
      | Outcome.blocked => (Outcome.blocked, n) := by
  simp only [network.run, hd]
  cases (n.disp e : Outcome ε (network σ R P)) <;> rfl

/-- The dispatcher on a network whose two queue fields point to its two open
queues: a message of one of the five consensus types is appended to the
to-consensus queue when that queue has room, and the send blocks when it has
none; any other message is treated so on the to-node queue. -/
theorem network.disp_open {σ R P ε D : Type} (n : network σ R P) (e : TransportEnvelope D P)
    (hc : n.toConsensus = some ChanId.consensus) (hn : n.toNode = some ChanId.node)
    (hoc : n.consensusChan.closed = false) (hon : n.nodeChan.closed = false) :
    (e.Msg.typ ∈ [DynType.Block, DynType.Vote, DynType.WitnessAck,
        DynType.DKGPrivateShare, DynType.DKGPartialSignature] →
      (n.consensusChan.buf.length < n.consensusChan.cap →
        (n.disp e : Outcome ε (network σ R P)) = Outcome.returned
          { n with consensusChan :=
            { n.consensusChan with buf := n.consensusChan.buf ++ [e.Msg] } }) ∧
      (¬ n.consensusChan.buf.length < n.consensusChan.cap →
        (n.disp e : Outcome ε (network σ R P)) = Outcome.blocked)) ∧
    (e.Msg.typ ∉ [DynType.Block, DynType.Vote, DynType.WitnessAck,
        DynType.DKGPrivateShare, DynType.DKGPartialSignature] →
      (n.nodeChan.buf.length < n.nodeChan.cap →
        (n.disp e : Outcome ε (network σ R P)) = Outcome.returned
          { n with nodeChan := { n.nodeChan with buf := n.nodeChan.buf ++ [e.Msg] } }) ∧
      (¬ n.nodeChan.buf.length < n.nodeChan.cap →
        (n.disp e : Outcome ε (network σ R P)) = Outcome.blocked)) := by
  constructor
  · intro ht
    have hd : (n.disp e : Outcome ε (network σ R P)) = n.send n.toConsensus e.Msg := by
      unfold network.disp
      cases hty : e.Msg.typ <;> simp_all
    rw [hd]
    constructor
    · intro hroom
      simp [network.send, network.chan, network.setChan, hoc, hroom, hc]
    · intro hfull
      simp [network.send, network.chan, hoc, hfull, hc]
  · intro ht
    have hd : (n.disp e : Outcome ε (network σ R P)) = n.send n.toNode e.Msg := by
      unfold network.disp
      cases hty : e.Msg.typ <;> simp_all
    rw [hd]
    constructor
    · intro hroom
      simp [network.send, network.chan, network.setChan, hon, hroom, hn]
    · intro hfull
      simp [network.send, network.chan, hon, hfull, hn]

/-- The main loop on a running, open network with room in both queues for all
the envelopes it receives: it returns when the input ends, with every message
at the tail of its queue, in arrival order. -/
theorem network.run_all {σ R P ε D : Type} (es : List (TransportEnvelope D P)) :
    ∀ n : network σ R P, n.ctxDone = false →
      n.toConsensus = some ChanId.consensus → n.toNode = some ChanId.node →
      n.consensusChan.closed = false → n.nodeChan.closed = false →
      n.consensusChan.buf.length +
        (es.filter fun e => decide (e.Msg.typ ∈ [DynType.Block, DynType.Vote,
          DynType.WitnessAck, DynType.DKGPrivateShare, DynType.DKGPartialSignature])).length ≤
        n.consensusChan.cap →
      n.nodeChan.buf.length +
        (es.filter fun e => !decide (e.Msg.typ ∈ [DynType.Block, DynType.Vote,
          DynType.WitnessAck, DynType.DKGPrivateShare, DynType.DKGPartialSignature])).length ≤
        n.nodeChan.cap →
      (n.run (es.map SelectEvent.recv) : Outcome ε Unit × network σ R P) =
        (Outcome.returned (),
          { n with
            consensusChan := { n.consensusChan with
              buf := n.consensusChan.buf ++
                (es.filter fun e => decide (e.Msg.typ ∈ [DynType.Block, DynType.Vote,
                  DynType.WitnessAck, DynType.DKGPrivateShare,
                  DynType.DKGPartialSignature])).map fun e => e.Msg }
            nodeChan := { n.nodeChan with
              buf := n.nodeChan.buf ++
                (es.filter fun e => !decide (e.Msg.typ ∈ [DynType.Block, DynType.Vote,
                  DynType.WitnessAck, DynType.DKGPrivateShare,
                  DynType.DKGPartialSignature])).map fun e => e.Msg } }) := by
  induction es with
  | nil =>
    intro n _ _ _ _ _ _ _
    simp [network.run]
  | cons e es ih =>
    intro n hd hc hn hoc hon hrc hrn
    rw [List.map_cons, network.run_recv n e _ hd]
    obtain ⟨hA, hB⟩ := network.disp_open (ε := ε) n e hc hn hoc hon
    by_cases ht : e.Msg.typ ∈ [DynType.Block, DynType.Vote, DynType.WitnessAck,
        DynType.DKGPrivateShare, DynType.DKGPartialSignature]
    · have hdec : decide (e.Msg.typ ∈ [DynType.Block, DynType.Vote, DynType.WitnessAck,
          DynType.DKGPrivateShare, DynType.DKGPartialSignature]) = true := decide_eq_true ht
      simp only [List.filter_cons, hdec, if_true, Bool.not_true, Bool.false_eq_true, if_false,
        List.length_cons, List.map_cons] at hrc hrn ⊢
      have key := ih { n with consensusChan :=
          { n.consensusChan with buf := n.consensusChan.buf ++ [e.Msg] } } hd hc hn hoc hon
        (by simp only [List.length_append, List.length_singleton]; omega) hrn
      rw [(hA ht).1 (by omega)]
      simp only []
      rw [key]
      simp
    · have hdec : decide (e.Msg.typ ∈ [DynType.Block, DynType.Vote, DynType.WitnessAck,
          DynType.DKGPrivateShare, DynType.DKGPartialSignature]) = false := decide_eq_false ht
      simp only [List.filter_cons, hdec, if_true, Bool.not_false, Bool.false_eq_true, if_false,
        List.length_cons, List.map_cons] at hrc hrn ⊢
      have key := ih { n with nodeChan :=
          { n.nodeChan with buf := n.nodeChan.buf ++ [e.Msg] } } hd hc hn hoc hon hrc
        (by simp only [List.length_append, List.length_singleton]; omega)
      rw [(hB ht).1 (by omega)]
      simp only []
      rw [key]
      simp

/-- C4: on a running network whose two queue fields point to its two open
queues, the main loop hands each envelope it receives to the dispatcher, which
sends the message on exactly one queue. When the payload is a Block, Vote,
WitnessAck, DKGPrivateShare or DKGPartialSignature and the to-consensus queue
has room, the dispatcher returns with the message appended, unmodified, at the
tail of the to-consensus queue and nothing else changed (the to-node queue
included), and the loop goes on from that state; with no room the dispatcher
blocks and the loop stays at that send. For every other payload the same holds
with the to-node queue. And when the queues have room for all the envelopes of
an input, the loop returns at the end of the input with every message of the
five types at the tail of the to-consensus queue and every other message at the
tail of the to-node queue, each once, in arrival order. -/
theorem disp_routes {σ R P ε D : Type} (n : network σ R P) (e : TransportEnvelope D P)
    (hc : n.toConsensus = some ChanId.consensus) (hn : n.toNode = some ChanId.node)
    (hoc : n.consensusChan.closed = false) (hon : n.nodeChan.closed = false) :
    (e.Msg.typ ∈ [DynType.Block, DynType.Vote, DynType.WitnessAck,
        DynType.DKGPrivateShare, DynType.DKGPartialSignature] →
      (n.consensusChan.buf.length < n.consensusChan.cap →
        (n.disp e : Outcome ε (network σ R P)) = Outcome.returned
          { n with consensusChan :=
            { n.consensusChan with buf := n.consensusChan.buf ++ [e.Msg] } } ∧
        (n.ctxDone = false → ∀ evs : List (SelectEvent D P),
          (n.run (SelectEvent.recv e :: evs) : Outcome ε Unit × network σ R P) =
            network.run { n with consensusChan :=
              { n.consensusChan with buf := n.consensusChan.buf ++ [e.Msg] } } evs)) ∧
      (¬ n.consensusChan.buf.length < n.consensusChan.cap →
        (n.disp e : Outcome ε (network σ R P)) = Outcome.blocked ∧
        (n.ctxDone = false → ∀ evs : List (SelectEvent D P),
          (n.run (SelectEvent.recv e :: evs) : Outcome ε Unit × network σ R P) =
            (Outcome.blocked, n)))) ∧
    (e.Msg.typ ∉ [DynType.Block, DynType.Vote, DynType.WitnessAck,
        DynType.DKGPrivateShare, DynType.DKGPartialSignature] →
      (n.nodeChan.buf.length < n.nodeChan.cap →
        (n.disp e : Outcome ε (network σ R P)) = Outcome.returned
          { n with nodeChan := { n.nodeChan with buf := n.nodeChan.buf ++ [e.Msg] } } ∧
        (n.ctxDone = false → ∀ evs : List (SelectEvent D P),
          (n.run (SelectEvent.recv e :: evs) : Outcome ε Unit × network σ R P) =
            network.run { n with nodeChan :=
              { n.nodeChan with buf := n.nodeChan.buf ++ [e.Msg] } } evs)) ∧
      (¬ n.nodeChan.buf.length < n.nodeChan.cap →
        (n.disp e : Outcome ε (network σ R P)) = Outcome.blocked ∧
        (n.ctxDone = false → ∀ evs : List (SelectEvent D P),
          (n.run (SelectEvent.recv e :: evs) : Outcome ε Unit × network σ R P) =
            (Outcome.blocked, n)))) ∧
    (n.ctxDone = false → ∀ es : List (TransportEnvelope D P),
      n.consensusChan.buf.length +
        (es.filter fun e => decide (e.Msg.typ ∈ [DynType.Block, DynType.Vote,
          DynType.WitnessAck, DynType.DKGPrivateShare, DynType.DKGPartialSignature])).length ≤
        n.consensusChan.cap →
      n.nodeChan.buf.length +
        (es.filter fun e => !decide (e.Msg.typ ∈ [DynType.Block, DynType.Vote,
          DynType.WitnessAck, DynType.DKGPrivateShare, DynType.DKGPartialSignature])).length ≤
        n.nodeChan.cap →
      (n.run (es.map SelectEvent.recv) : Outcome ε Unit × network σ R P) =
        (Outcome.returned (),
          { n with
            consensusChan := { n.consensusChan with
              buf := n.consensusChan.buf ++
                (es.filter fun e => decide (e.Msg.typ ∈ [DynType.Block, DynType.Vote,
                  DynType.WitnessAck, DynType.DKGPrivateShare,
                  DynType.DKGPartialSignature])).map fun e => e.Msg }
            nodeChan := { n.nodeChan with
              buf := n.nodeChan.buf ++
                (es.filter fun e => !decide (e.Msg.typ ∈ [DynType.Block, DynType.Vote,
                  DynType.WitnessAck, DynType.DKGPrivateShare,
                  DynType.DKGPartialSignature])).map fun e => e.Msg } })) := by
  obtain ⟨hA, hB⟩ := network.disp_open (ε := ε) n e hc hn hoc hon
  refine ⟨fun ht => ⟨fun hroom => ⟨(hA ht).1 hroom, fun hd evs => ?_⟩,
      fun hfull => ⟨(hA ht).2 hfull, fun hd evs => ?_⟩⟩,
    fun ht => ⟨fun hroom => ⟨(hB ht).1 hroom, fun hd evs => ?_⟩,
      fun hfull => ⟨(hB ht).2 hfull, fun hd evs => ?_⟩⟩,
    fun hd es hrc hrn => network.run_all es n hd hc hn hoc hon hrc hrn⟩
  · rw [network.run_recv n e evs hd, (hA ht).1 hroom]
  · rw [network.run_recv n e evs hd, (hA ht).2 hfull]
  · rw [network.run_recv n e evs hd, (hB ht).1 hroom]
  · rw [network.run_recv n e evs hd, (hB ht).2 hfull]

/-- C5, amended: for every network, when a first Close has returned, a second
Close on the state it left panics with the close of a nil channel; it returns
no error and changes nothing. -/
theorem Close_twice_panics {σ ε N R P : Type} (T : TransportClient σ ε N R P)
    (n n1 : network σ R P) (err : Option ε)
    (h : network.Close T n = (Outcome.returned err, n1)) :
    network.Close T n1 = (Outcome.panicked Panic.closeOfNilChannel, n1) := by
  obtain ⟨cfg, done, tr, tc, tn, ⟨b1, c1, cl1⟩, ⟨b2, c2, cl2⟩⟩ := n
  rcases tc with _ | _ | _ <;> rcases tn with _ | _ | _ <;> cases cl1 <;> cases cl2 <;>
    simp [network.Close, network.closeChan, network.chan, network.setChan] at h <;>
    (obtain ⟨_, rfl⟩ := h; simp [network.Close, network.closeChan])


/-- C6: on a transport that logs its calls, each of BroadcastVote,
BroadcastBlock, BroadcastWitnessAck, BroadcastDKGPrivateShare and
SendDKGPrivateShare adds exactly one call to the log, the Broadcast (the Send to
the given receiver) of the given message; it panics with the error of that call
when the call returns one, and returns normally when the call returns nil. -/
theorem broadcast_calls_transport_once {σ ε N R P : Type} (T : TransportClient σ ε N R P)
    (n : network (σ × List (Call N P)) R P) (v : P) (recv : N) :
    network.BroadcastVote T.logged n v =
      (match (T.Broadcast n.trans.1 ⟨DynType.Vote, v⟩).1 with
        | some err => Outcome.panicked (Panic.error err)
        | none => Outcome.returned (),
       { n with trans := ((T.Broadcast n.trans.1 ⟨DynType.Vote, v⟩).2,
          n.trans.2 ++ [Call.Broadcast ⟨DynType.Vote, v⟩]) }) ∧
    network.BroadcastBlock T.logged n v =
      (match (T.Broadcast n.trans.1 ⟨DynType.Block, v⟩).1 with
        | some err => Outcome.panicked (Panic.error err)
        | none => Outcome.returned (),
       { n with trans := ((T.Broadcast n.trans.1 ⟨DynType.Block, v⟩).2,
          n.trans.2 ++ [Call.Broadcast ⟨DynType.Block, v⟩]) }) ∧
    network.BroadcastWitnessAck T.logged n v =
      (match (T.Broadcast n.trans.1 ⟨DynType.WitnessAck, v⟩).1 with
        | some err => Outcome.panicked (Panic.error err)
        | none => Outcome.returned (),
       { n with trans := ((T.Broadcast n.trans.1 ⟨DynType.WitnessAck, v⟩).2,
          n.trans.2 ++ [Call.Broadcast ⟨DynType.WitnessAck, v⟩]) }) ∧
    network.BroadcastDKGPrivateShare T.logged n v =
      (match (T.Broadcast n.trans.1 ⟨DynType.DKGPrivateShare, v⟩).1 with
        | some err => Outcome.panicked (Panic.error err)
        | none => Outcome.returned (),
       { n with trans := ((T.Broadcast n.trans.1 ⟨DynType.DKGPrivateShare, v⟩).2,
          n.trans.2 ++ [Call.Broadcast ⟨DynType.DKGPrivateShare, v⟩]) }) ∧
    network.SendDKGPrivateShare T.logged n recv v =
      (match (T.Send n.trans.1 recv ⟨DynType.DKGPrivateShare, v⟩).1 with
        | some err => Outcome.panicked (Panic.error err)
        | none => Outcome.returned (),
       { n with trans := ((T.Send n.trans.1 recv ⟨DynType.DKGPrivateShare, v⟩).2,
          n.trans.2 ++ [Call.Send recv ⟨DynType.DKGPrivateShare, v⟩]) }) := by
  refine ⟨?_, ?_, ?_, ?_, ?_⟩
  · simp only [network.BroadcastVote, TransportClient.logged]
    cases (T.Broadcast n.trans.1 ⟨DynType.Vote, v⟩).1 <;> rfl
  · simp only [network.BroadcastBlock, TransportClient.logged]
    cases (T.Broadcast n.trans.1 ⟨DynType.Block, v⟩).1 <;> rfl
  · simp only [network.BroadcastWitnessAck, TransportClient.logged]
    cases (T.Broadcast n.trans.1 ⟨DynType.WitnessAck, v⟩).1 <;> rfl
  · simp only [network.BroadcastDKGPrivateShare, TransportClient.logged]
    cases (T.Broadcast n.trans.1 ⟨DynType.DKGPrivateShare, v⟩).1 <;> rfl
  · simp only [network.SendDKGPrivateShare, TransportClient.logged]
    cases (T.Send n.trans.1 recv ⟨DynType.DKGPrivateShare, v⟩).1 <;> rfl

/-- The example network with empty queues is the one newNetwork returns. -/
theorem newNetwork_example (m : Message Nat) :
    newNetwork exampleTransport.logged 0 exampleConfig = Except.ok (exampleNetwork 0 m) := rfl

/-- C4, on the network newNetwork returns: the main loop receives a vote, a
message of another type and a block, and returns at the end of the input with
the vote and the block in the to-consensus queue and the other message in the
to-node queue. -/
theorem disp_routes_witness :
    ((exampleNetwork 0 ⟨DynType.Vote, 5⟩).run
        [SelectEvent.recv (⟨(), ⟨DynType.Vote, 5⟩⟩ : TransportEnvelope Unit Nat),
          SelectEvent.recv ⟨(), ⟨DynType.other 0, 6⟩⟩,
          SelectEvent.recv ⟨(), ⟨DynType.Block, 7⟩⟩] :
        Outcome Nat Unit × network (Nat × List (Call Nat Nat)) Nat Nat) =
      (Outcome.returned (),
        { exampleNetwork 0 ⟨DynType.Vote, 5⟩ with
          consensusChan :=
            { buf := [⟨DynType.Vote, 5⟩, ⟨DynType.Block, 7⟩], cap := 1000, closed := false }
          nodeChan := { buf := [⟨DynType.other 0, 6⟩], cap := 1000, closed := false } }) :=
  (disp_routes (exampleNetwork 0 ⟨DynType.Vote, 5⟩)
    (⟨(), ⟨DynType.Vote, 5⟩⟩ : TransportEnvelope Unit Nat) rfl rfl rfl rfl).2.2 rfl
    [⟨(), ⟨DynType.Vote, 5⟩⟩, ⟨(), ⟨DynType.other 0, 6⟩⟩, ⟨(), ⟨DynType.Block, 7⟩⟩]
    (by decide) (by decide)

/-- C5 fails on the network newNetwork returns: the first Close returns nil,
the second Close panics with the close of a nil channel, so it does not return
an error. -/
theorem Close_twice_not_error :
    network.Close exampleTransport.logged (exampleNetwork 0 ⟨DynType.Vote, 5⟩) =
      (Outcome.returned none,
        { exampleNetwork 0 ⟨DynType.Vote, 5⟩ with
          ctxDone := true
          trans := (0, [Call.Close])
          toConsensus := none
          toNode := none
          consensusChan := { buf := [], cap := 1000, closed := true }
          nodeChan := { buf := [], cap := 1000, closed := true } }) ∧
    (network.Close exampleTransport.logged
      (network.Close exampleTransport.logged (exampleNetwork 0 ⟨DynType.Vote, 5⟩)).2).1 =
      Outcome.panicked Panic.closeOfNilChannel ∧
    ¬ ∃ err, (network.Close exampleTransport.logged
      (network.Close exampleTransport.logged (exampleNetwork 0 ⟨DynType.Vote, 5⟩)).2).1 =
      Outcome.returned (some err) := by
  refine ⟨rfl, rfl, ?_⟩
  rintro ⟨err, h⟩
  have h2 : (network.Close exampleTransport.logged
      (network.Close exampleTransport.logged (exampleNetwork 0 ⟨DynType.Vote, 5⟩)).2).1 =
      Outcome.panicked Panic.closeOfNilChannel := rfl
  rw [h2] at h
  cases h

/-- C5, amended, on a network holding three blocks in its to-consensus queue. -/
theorem Close_twice_panics_witness :
    (network.Close exampleTransport.logged
      (network.Close exampleTransport.logged (exampleNetwork 3 ⟨DynType.Block, 1⟩)).2).1 =
      Outcome.panicked Panic.closeOfNilChannel :=
  congrArg Prod.fst (Close_twice_panics exampleTransport.logged
    (exampleNetwork 3 ⟨DynType.Block, 1⟩) _ none rfl)

/-- A send by the dispatcher that returns keeps the invariant. -/
theorem network.Inv_send {σ R P ε : Type} (n n1 : network σ R P) (x : Message P)
    (hi : n.Inv) :
    ((n.send n.toConsensus x : Outcome ε (network σ R P)) = Outcome.returned n1 → n1.Inv) ∧
    ((n.send n.toNode x : Outcome ε (network σ R P)) = Outcome.returned n1 → n1.Inv) := by
  obtain ⟨⟨hc1, hc2⟩, ⟨hb1, hb2⟩, h3, h4⟩ := hi
  constructor
  · intro h
    cases hq : n.toConsensus with
    | none => simp [network.send, hq] at h
    | some q =>
      obtain ⟨rfl, hcl⟩ := h3 q hq
      simp only [network.send, hq, network.chan, hcl, network.setChan] at h
      split at h
      · simp at h
      · split at h
        · rename_i hlt
          simp only [Outcome.returned.injEq] at h
          subst h
          refine ⟨⟨hc1, hc2⟩, ⟨?_, hb2⟩, ?_, h4⟩
          · simp only [List.length_append, List.length_singleton]
            omega
          · intro q hq2
            simp only [Option.some.injEq] at hq2
            exact ⟨hq2.symm, rfl⟩
        · simp at h
  · intro h
    cases hq : n.toNode with
    | none => simp [network.send, hq] at h
    | some q =>
      obtain ⟨rfl, hcl⟩ := h4 q hq
      simp only [network.send, hq, network.chan, hcl, network.setChan] at h
      split at h
      · simp at h
      · split at h
        · rename_i hlt
          simp only [Outcome.returned.injEq] at h
          subst h
          refine ⟨⟨hc1, hc2⟩, ⟨hb1, ?_⟩, h3, ?_⟩
          · simp only [List.length_append, List.length_singleton]
            omega
          · intro q hq2
            simp only [Option.some.injEq] at hq2
            exact ⟨hq2.symm, rfl⟩
        · simp at h

/-- The dispatcher is one send of the message, on the to-consensus queue for the
five consensus types and on the to-node queue otherwise. -/
theorem network.disp_eq_send {σ R P ε D : Type} (n : network σ R P)
    (e : TransportEnvelope D P) :
    (n.disp e : Outcome ε (network σ R P)) =
      n.send (if e.Msg.typ ∈ [DynType.Block, DynType.Vote, DynType.WitnessAck,
        DynType.DKGPrivateShare, DynType.DKGPartialSignature] then n.toConsensus
        else n.toNode) e.Msg := by
  unfold network.disp
  cases e.Msg.typ <;> simp

/-- A receive keeps the invariant. -/
theorem network.Inv_recv {σ R P : Type} (n n1 : network σ R P) (q : ChanId) (x : Message P)
    (hi : n.Inv) (h : n.recv q = some (x, n1)) : n1.Inv := by
  obtain ⟨⟨hc1, hc2⟩, ⟨hb1, hb2⟩, h3, h4⟩ := hi
  unfold network.recv at h
  split at h
  · simp at h
  · rename_i y rest hbuf
    simp only [Option.some.injEq, Prod.mk.injEq] at h
    obtain ⟨_, rfl⟩ := h
    cases q
    · simp only [network.chan] at hbuf
      simp only [hbuf, List.length_cons] at hb1
      exact ⟨⟨hc1, hc2⟩, ⟨by simp [network.setChan, network.chan]; omega, hb2⟩, h3, h4⟩
    · simp only [network.chan] at hbuf
      simp only [hbuf, List.length_cons] at hb2
      exact ⟨⟨hc1, hc2⟩, ⟨hb1, by simp [network.setChan, network.chan]; omega⟩, h3, h4⟩

/-- Close keeps the invariant, however it ends. -/
theorem network.Inv_Close {σ ε N R P : Type} (T : TransportClient σ ε N R P)
    (n : network σ R P) (hi : n.Inv) : (network.Close T n).2.Inv := by
  unfold network.Inv at hi ⊢
  generalize 1000 = k at hi ⊢
  obtain ⟨cfg, done, tr, tc, tn, ⟨b1, c1, cl1⟩, ⟨b2, c2, cl2⟩⟩ := n
  obtain ⟨⟨hc1, hc2⟩, ⟨hb1, hb2⟩, h3, h4⟩ := hi
  simp only at hc1 hc2 hb1 hb2 h3 h4
  subst hc1 hc2
  cases tc with
  | none =>
    simp [network.Close, network.closeChan, hb1, hb2]
    intro q hq
    exact h4 q hq
  | some q1 =>
    obtain ⟨rfl, rfl⟩ := h3 q1 rfl
    cases tn with
    | none => simp [network.Close, network.closeChan, network.chan, network.setChan, hb1, hb2]
    | some q2 =>
      obtain ⟨rfl, rfl⟩ := h4 q2 rfl
      simp [network.Close, network.closeChan, network.chan, network.setChan, hb1, hb2]

/-- The invariant does not depend on the transport client. -/
theorem network.Inv_trans {σ R P : Type} (n : network σ R P) (t : σ) (hi : n.Inv) :
    ({ n with trans := t } : network σ R P).Inv := hi

/-- Every reachable state satisfies the invariant. -/
theorem network.Reachable.inv {σ ε N R P D : Type} (T : TransportClient σ ε N R P)
    (nID : N) (cfg : Networking R) (n : network σ R P)
    (hr : network.Reachable D T nID cfg n) : n.Inv := by
  induction hr with
  | init n h =>
    unfold newNetwork at h
    split at h <;> simp only [Except.ok.injEq] at h <;> first
      | (subst h; simp [network.Inv, Chan.make])
      | cases h
  | disp n n1 e _ h ih =>
    rw [network.disp_eq_send] at h
    split at h
    · exact (network.Inv_send n n1 e.Msg ih).1 h
    · exact (network.Inv_send n n1 e.Msg ih).2 h
  | recv n n1 q x _ h ih => exact network.Inv_recv n n1 q x ih h
  | close n _ ih => exact network.Inv_Close T n ih
  | broadcastVote n v _ ih =>
    unfold network.BroadcastVote
    split <;> exact ih
  | broadcastBlock n v _ ih =>
    unfold network.BroadcastBlock
    split <;> exact ih
  | broadcastWitnessAck n v _ ih =>
    unfold network.BroadcastWitnessAck
    split <;> exact ih
  | sendDKGPrivateShare n recv v _ ih =>
    unfold network.SendDKGPrivateShare
    split <;> exact ih
  | broadcastDKGPrivateShare n v _ ih =>
    unfold network.BroadcastDKGPrivateShare
    split <;> exact ih


/-- Replacing a channel object changes that object only. -/
theorem network.chan_setChan {σ R P : Type} (n : network σ R P) (q : ChanId)
    (c : Chan (Message P)) :
    (n.setChan q c).chan q = c ∧ (∀ q2, q2 ≠ q → (n.setChan q c).chan q2 = n.chan q2) ∧
    (n.setChan q c).toConsensus = n.toConsensus ∧ (n.setChan q c).toNode = n.toNode := by
  cases q
  · refine ⟨rfl, ?_, rfl, rfl⟩
    intro q2 hq2
    cases q2
    · exact absurd rfl hq2
    · rfl
  · refine ⟨rfl, ?_, rfl, rfl⟩
    intro q2 hq2
    cases q2
    · rfl
    · exact absurd rfl hq2

/-- A send on an open queue that is full blocks; after a receive from that
queue the same send returns, with the element at the tail of the queue. -/
theorem network.send_full_then_recv {σ R P ε : Type} (n : network σ R P) (q : ChanId)
    (x : Message P) (hcl : (n.chan q).closed = false)
    (hfull : (n.chan q).buf.length = (n.chan q).cap) (hpos : 0 < (n.chan q).cap) :
    (n.send (some q) x : Outcome ε (network σ R P)) = Outcome.blocked ∧
    ∃ y n1, n.recv q = some (y, n1) ∧ n1.toConsensus = n.toConsensus ∧
      n1.toNode = n.toNode ∧ (n1.chan q).buf = (n.chan q).buf.tail ∧
      ∃ n2, (n1.send (some q) x : Outcome ε (network σ R P)) = Outcome.returned n2 ∧
        (n2.chan q).buf = (n.chan q).buf.tail ++ [x] ∧
        ∀ q2, q2 ≠ q → n2.chan q2 = n.chan q2 := by
  constructor
  · simp [network.send, hcl, hfull]
  · cases hb : (n.chan q).buf with
    | nil => simp [hb] at hfull; omega
    | cons y rest =>
      have hlen : rest.length < (n.chan q).cap := by
        rw [← hfull, hb]; simp
      obtain ⟨e1, e2, e3, e4⟩ := network.chan_setChan n q { n.chan q with buf := rest }
      refine ⟨y, n.setChan q { n.chan q with buf := rest }, ?_, e3, e4, ?_, ?_⟩
      · simp [network.recv, hb]
      · rw [e1]; rfl
      · obtain ⟨f1, f2, _, _⟩ := network.chan_setChan
          (n.setChan q { n.chan q with buf := rest }) q
          { n.chan q with buf := rest ++ [x] }
        refine ⟨(n.setChan q { n.chan q with buf := rest }).setChan q
          { n.chan q with buf := rest ++ [x] }, ?_, ?_, ?_⟩
        · dsimp only at e1
          simp only [hcl] at e1
          simp only [network.send, hcl, e1, hlen]
          simp
        · rw [f1]; rfl
        · intro q2 hq2
          rw [f2 q2 hq2, e2 q2 hq2]

/-- C8: in every reachable state of a network both queues have capacity 1000
and hold at most 1000 messages; and when the queue a delivery goes to holds
1000 messages, the delivery blocks (it does not return and does not panic, and
the state stays as it is), a reader can take the oldest message from that
queue, and after that the same delivery returns with the message appended at
the tail of the queue, behind the messages that were there, the other queue
untouched. -/
theorem queues_bounded_backpressure {σ ε N R P D : Type} (T : TransportClient σ ε N R P)
    (nID : N) (cfg : Networking R) (n : network σ R P)
    (hr : network.Reachable D T nID cfg n) :
    (n.consensusChan.cap = 1000 ∧ n.nodeChan.cap = 1000 ∧
      n.consensusChan.buf.length ≤ 1000 ∧ n.nodeChan.buf.length ≤ 1000) ∧
    ∀ (e : TransportEnvelope D P) (q : ChanId),
      (if e.Msg.typ ∈ [DynType.Block, DynType.Vote, DynType.WitnessAck,
        DynType.DKGPrivateShare, DynType.DKGPartialSignature] then n.toConsensus
        else n.toNode) = some q →
      (n.chan q).buf.length = 1000 →
      (n.disp e : Outcome ε (network σ R P)) = Outcome.blocked ∧
      ∃ y n1, n.recv q = some (y, n1) ∧ (n1.chan q).buf = (n.chan q).buf.tail ∧
        ∃ n2, (n1.disp e : Outcome ε (network σ R P)) = Outcome.returned n2 ∧
          (n2.chan q).buf = (n.chan q).buf.tail ++ [e.Msg] ∧
          ∀ q2, q2 ≠ q → n2.chan q2 = n.chan q2 := by
  obtain ⟨⟨hc1, hc2⟩, ⟨hb1, hb2⟩, h3, h4⟩ := network.Reachable.inv T nID cfg n hr
  refine ⟨⟨hc1, hc2, hb1, hb2⟩, ?_⟩
  intro e q hq hlen
  have hopen : (n.chan q).closed = false ∧ (n.chan q).cap = 1000 := by
    split at hq
    · obtain ⟨rfl, h⟩ := h3 q hq
      exact ⟨h, hc1⟩
    · obtain ⟨rfl, h⟩ := h4 q hq
      exact ⟨h, hc2⟩
  obtain ⟨hblk, y, n1, hrecv, htc, htn, htail, n2, hsend, hbuf, hoth⟩ :=
    network.send_full_then_recv (ε := ε) n q e.Msg hopen.1 (by rw [hlen, hopen.2])
      (by rw [hopen.2]; decide)
  refine ⟨?_, y, n1, hrecv, htail, n2, ?_, hbuf, hoth⟩
  · rw [network.disp_eq_send, hq]
    exact hblk
  · rw [network.disp_eq_send, htc, htn, hq]
    exact hsend


/-- The example network with up to 1000 votes queued is reachable: the votes
were delivered one by one. -/
theorem exampleNetwork_reachable (k : Nat) (hk : k ≤ 1000) :
    network.Reachable Unit exampleTransport.logged 0 exampleConfig
      (exampleNetwork k ⟨DynType.Vote, 5⟩) := by
  induction k with
  | zero => exact network.Reachable.init _ rfl
  | succ k ih =>
    refine network.Reachable.disp (exampleNetwork k ⟨DynType.Vote, 5⟩) _
      ⟨(), ⟨DynType.Vote, 5⟩⟩ (ih (by omega)) ?_
    have hlt : k < 1000 := by omega
    simp [network.disp, network.send, network.chan, network.setChan, exampleNetwork, hlt,
      List.replicate_succ']

/-- C8, on the example network with 1000 votes queued: the state is reachable,
its to-consensus queue is full, and the delivery of a block blocks. -/
theorem queues_bounded_backpressure_witness :
    network.Reachable Unit exampleTransport.logged 0 exampleConfig
      (exampleNetwork 1000 ⟨DynType.Vote, 5⟩) ∧
    ((exampleNetwork 1000 ⟨DynType.Vote, 5⟩).chan ChanId.consensus).buf.length = 1000 ∧
    ((exampleNetwork 1000 ⟨DynType.Vote, 5⟩).disp
      (⟨(), ⟨DynType.Block, 7⟩⟩ : TransportEnvelope Unit Nat) : Outcome Nat _) =
        Outcome.blocked :=
  ⟨exampleNetwork_reachable 1000 (Nat.le_refl _), List.length_replicate _ _,
    ((queues_bounded_backpressure exampleTransport.logged 0 exampleConfig
      (exampleNetwork 1000 ⟨DynType.Vote, 5⟩) (exampleNetwork_reachable 1000 (Nat.le_refl _))).2
      ⟨(), ⟨DynType.Block, 7⟩⟩ ChanId.consensus rfl (List.length_replicate _ _)).1⟩

/-! ### Sorting by hash, and the signature check -/

/-- The library comparison returns -1 exactly on lexicographically smaller
slices. -/
theorem bytes.Compare_lt_iff (x y : List Byte) :
    bytes.Compare x y = -1 ↔ List.Lex (· < ·) x y := by
  induction x generalizing y with
  | nil =>
    cases y with
    | nil => simp [bytes.Compare]
    | cons b bs => simp [bytes.Compare, List.Lex.nil]
  | cons a as ih =>
    cases y with
    | nil => simp [bytes.Compare]
    | cons b bs =>
      unfold bytes.Compare
      by_cases hab : a < b
      · simp only [hab, if_true, true_iff]
        exact List.Lex.rel hab
      · by_cases hba : b < a
        · simp only [hab, hba, if_true, if_false]
          constructor
          · intro h; cases h
          · intro h
            cases h with
            | cons h' => exact absurd hba (lt_irrefl _)
            | rel h' => exact absurd h' hab
        · have heq : a = b := le_antisymm (not_lt.mp hba) (not_lt.mp hab)
          subst heq
          simp only [hab, if_false]
          rw [ih, List.Lex.cons_iff]


/-- On lists of the same length, being lexicographically smaller is having the
smaller byte at the first position where the two differ. -/
theorem lex_iff_first_difference (x : List Byte) :
    ∀ y : List Byte, x.length = y.length →
      (List.Lex (· < ·) x y ↔
        ∃ p : Nat, (∀ r : Nat, r < p → x[r]? = y[r]?) ∧
          ∃ a c : Byte, x[p]? = some a ∧ y[p]? = some c ∧ a < c) := by
  induction x with
  | nil =>
    intro y hy
    cases y with
    | nil => simp
    | cons b bs => simp at hy
  | cons a as ih =>
    intro y hy
    cases y with
    | nil => simp at hy
    | cons b bs =>
      have hlen : as.length = bs.length := by simpa using hy
      constructor
      · intro h
        cases h with
        | rel h' => exact ⟨0, by intro r hr; omega, a, b, by simp, by simp, h'⟩
        | cons h' =>
          obtain ⟨p, hp, a', c', h1, h2, h3⟩ := (ih bs hlen).mp h'
          refine ⟨p + 1, ?_, a', c', by simpa using h1, by simpa using h2, h3⟩
          intro r hr
          cases r with
          | zero => simp
          | succ r => simpa using hp r (by omega)
      · rintro ⟨p, hp, a', c', h1, h2, h3⟩
        cases p with
        | zero =>
          simp only [List.getElem?_cons_zero, Option.some.injEq] at h1 h2
          subst h1 h2
          exact List.Lex.rel h3
        | succ p =>
          have h0 := hp 0 (by omega)
          simp only [List.getElem?_cons_zero, Option.some.injEq] at h0
          subst h0
          refine List.Lex.cons ((ih bs hlen).mpr ⟨p, ?_, a', c', by simpa using h1,
            by simpa using h2, h3⟩)
          intro r hr
          simpa using hp (r + 1) (by omega)

/-- On two indices that hold blocks, Less returns, and tells whether the first
hash is lexicographically smaller. -/
theorem ByHash.Less_eq {VID Time : Type} (b : ByHash VID Time) (i j : Nat)
    (bi bj : Block VID Time) (hi : b[i]? = some (some bi)) (hj : b[j]? = some (some bj)) :
    b.Less i j = Except.ok (decide (List.Lex (· < ·) bi.Hash.1 bj.Hash.1)) := by
  simp only [ByHash.Less, ByHash.hashAt, ByHash.index, hi, hj, common.Hash.slice]
  congr 1
  by_cases h : List.Lex (· < ·) bi.Hash.1 bj.Hash.1
  · simp [h, (bytes.Compare_lt_iff _ _).mpr h]
  · have h2 : ¬ bytes.Compare bi.Hash.1 bj.Hash.1 = -1 := fun hc =>
      h ((bytes.Compare_lt_iff _ _).mp hc)
    simp [h, h2]


/-- On two indices below the length, Swap returns the slice with the two
elements exchanged. -/
theorem ByHash.Swap_eq {VID Time : Type} (b : ByHash VID Time) (i j : Nat)
    (hi : i < b.Len) (hj : j < b.Len) :
    ∃ b2, b.Swap i j = Except.ok b2 ∧ b2.Len = b.Len ∧ b2[i]? = b[j]? ∧ b2[j]? = b[i]? ∧
      ∀ r : Nat, r ≠ i → r ≠ j → b2[r]? = b[r]? := by
  unfold ByHash.Len at hi hj
  have ei : b[i]? = some b[i] := List.getElem?_eq_getElem hi
  have ej : b[j]? = some b[j] := List.getElem?_eq_getElem hj
  refine ⟨(b.set i b[j]).set j b[i], ?_, ?_, ?_, ?_, ?_⟩
  · simp only [ByHash.Swap, ByHash.index, ei, ej]
  · simp [ByHash.Len]
  · by_cases hij : j = i
    · subst hij
      rw [List.getElem?_set_self (by simpa using hj)]
      exact ei.symm
    · rw [List.getElem?_set_ne hij, List.getElem?_set_self hi]
      exact ej.symm
  · rw [List.getElem?_set_self (by simpa using hj)]
    exact ei.symm
  · intro r hri hrj
    rw [List.getElem?_set_ne (Ne.symm hrj), List.getElem?_set_ne (Ne.symm hri)]

/-- C10: for a slice of blocks and indices i, j, k that hold blocks: Less(i, j)
returns, and it is true exactly when the hash of block i is smaller than the
hash of block j in lexicographic byte order (they agree up to some position,
where block i has the smaller byte); Less(i, i) is false; Less(i, j) and
Less(j, k) give Less(i, k); when the two hashes differ exactly one of
Less(i, j) and Less(j, i) is true; and for any two indices below the length
Swap returns the slice with the two elements exchanged, of the same Len, every
other element as it was. -/
theorem ByHash_order {VID Time : Type} (b : ByHash VID Time) (i j k : Nat)
    (bi bj bk : Block VID Time) (hi : b[i]? = some (some bi)) (hj : b[j]? = some (some bj))
    (hk : b[k]? = some (some bk)) :
    (b.Less i j = Except.ok true ↔
      ∃ p : Nat, (∀ r : Nat, r < p → bi.Hash.1[r]? = bj.Hash.1[r]?) ∧
        ∃ x y : Byte, bi.Hash.1[p]? = some x ∧ bj.Hash.1[p]? = some y ∧ x < y) ∧
    (b.Less i j = Except.ok true ∨ b.Less i j = Except.ok false) ∧
    b.Less i i = Except.ok false ∧
    (b.Less i j = Except.ok true → b.Less j k = Except.ok true →
      b.Less i k = Except.ok true) ∧
    (bi.Hash ≠ bj.Hash →
      (b.Less i j = Except.ok true ∧ b.Less j i = Except.ok false) ∨
      (b.Less i j = Except.ok false ∧ b.Less j i = Except.ok true)) ∧
    (∀ m n : Nat, m < b.Len → n < b.Len →
      ∃ b2, b.Swap m n = Except.ok b2 ∧ b2.Len = b.Len ∧ b2[m]? = b[n]? ∧ b2[n]? = b[m]? ∧
        ∀ r : Nat, r ≠ m → r ≠ n → b2[r]? = b[r]?) := by
  have hlen : ∀ u v : Block VID Time, u.Hash.1.length = v.Hash.1.length := fun u v => by
    rw [u.Hash.2, v.Hash.2]
  have key : ∀ (u v : Nat) (bu bv : Block VID Time), b[u]? = some (some bu) →
      b[v]? = some (some bv) →
      (b.Less u v = Except.ok true ↔ List.Lex (· < ·) bu.Hash.1 bv.Hash.1) ∧
      (b.Less u v = Except.ok false ↔ ¬ List.Lex (· < ·) bu.Hash.1 bv.Hash.1) := by
    intro u v bu bv hu hv
    rw [ByHash.Less_eq b u v bu bv hu hv]
    by_cases h : List.Lex (· < ·) bu.Hash.1 bv.Hash.1 <;> simp [h]
  refine ⟨?_, ?_, ?_, ?_, ?_, fun m n hm hn => ByHash.Swap_eq b m n hm hn⟩
  · rw [(key i j bi bj hi hj).1, lex_iff_first_difference _ _ (hlen bi bj)]
  · by_cases h : List.Lex (· < ·) bi.Hash.1 bj.Hash.1
    · exact Or.inl ((key i j bi bj hi hj).1.mpr h)
    · exact Or.inr ((key i j bi bj hi hj).2.mpr h)
  · exact (key i i bi bi hi hi).2.mpr (irrefl_of (List.Lex (· < ·)) bi.Hash.1)
  · intro h1 h2
    exact (key i k bi bk hi hk).1.mpr
      (trans_of (List.Lex (· < ·)) ((key i j bi bj hi hj).1.mp h1)
        ((key j k bj bk hj hk).1.mp h2))
  · intro hne
    have hne2 : bi.Hash.1 ≠ bj.Hash.1 := fun h => hne (Subtype.ext h)
    have htri : IsTrichotomous (List Byte) (List.Lex (· < ·)) :=
      List.Lex.isTrichotomous (· < ·)
    rcases htri.trichotomous bi.Hash.1 bj.Hash.1 with h | h | h
    · exact Or.inl ⟨(key i j bi bj hi hj).1.mpr h,
        (key j i bj bi hj hi).2.mpr (asymm_of (List.Lex (· < ·)) h)⟩
    · exact absurd h hne2
    · exact Or.inr ⟨(key i j bi bj hi hj).2.mpr (asymm_of (List.Lex (· < ·)) h),
        (key j i bj bi hj hi).1.mpr h⟩


/-- C10, on three example blocks whose hashes are filled with 2, 1 and 3: block 1
is less than block 0, block 0 less than block 2, hence block 1 less than
block 2. -/
theorem ByHash_order_witness :
    exampleBlocks.Less 1 0 = Except.ok true ∧ exampleBlocks.Less 0 2 = Except.ok true ∧
    exampleBlocks.Less 1 2 = Except.ok true :=
  ⟨rfl, rfl,
    (ByHash_order exampleBlocks 1 0 2 (exampleBlockWith 1) (exampleBlockWith 2)
      (exampleBlockWith 3) rfl rfl rfl).2.2.2.1 rfl rfl⟩

/-- C7: for every verifier of the library, key, hash and signature: when the
signature has 65 bytes, VerifySignature returns what it returns on the
signature cut to its first 64 bytes, which is what the verifier returns on
those 64 bytes; when the signature has any other length, VerifySignature
returns what the verifier returns on the signature as given. -/
theorem VerifySignature_ignores_recovery_byte
    (verify : List Byte → List Byte → List Byte → Bool) (pub : publicKey)
    (hash : common.Hash) (signature : core.crypto.Signature) :
    (signature.Signature.length = 65 →
      (signature.Signature.take 64).length = 64 ∧
      pub.VerifySignature verify hash signature =
        pub.VerifySignature verify hash
          { signature with Signature := signature.Signature.take 64 } ∧
      pub.VerifySignature verify hash signature =
        verify pub.publicKey hash.slice (signature.Signature.take 64)) ∧
    (signature.Signature.length ≠ 65 →
      pub.VerifySignature verify hash signature =
        verify pub.publicKey hash.slice signature.Signature) := by
  constructor
  · intro h
    have h64 : (signature.Signature.take 64).length = 64 := by
      rw [List.length_take, h]; rfl
    refine ⟨h64, ?_, ?_⟩
    · simp [publicKey.VerifySignature, h, h64]
    · simp [publicKey.VerifySignature, h]
  · intro h
    simp [publicKey.VerifySignature, h]

/-- C7, on a 65-byte signature (64 bytes and a recovery byte) and on a 66-byte
signature. -/
theorem VerifySignature_ignores_recovery_byte_witness :
    publicKey.VerifySignature exampleVerify ⟨[7]⟩ (common.Hash.fill 0)
        ⟨"ecdsa", List.replicate 64 7 ++ [1]⟩ =
      publicKey.VerifySignature exampleVerify ⟨[7]⟩ (common.Hash.fill 0)
        ⟨"ecdsa", List.replicate 64 7⟩ ∧
    publicKey.VerifySignature exampleVerify ⟨[7]⟩ (common.Hash.fill 0)
        ⟨"ecdsa", List.replicate 64 7 ++ [1, 1]⟩ =
      exampleVerify [7] (common.Hash.fill 0).slice (List.replicate 64 7 ++ [1, 1]) :=
  ⟨((VerifySignature_ignores_recovery_byte exampleVerify ⟨[7]⟩ (common.Hash.fill 0)
      ⟨"ecdsa", List.replicate 64 7 ++ [1]⟩).1 (by decide)).2.1,
    (VerifySignature_ignores_recovery_byte exampleVerify ⟨[7]⟩ (common.Hash.fill 0)
      ⟨"ecdsa", List.replicate 64 7 ++ [1, 1]⟩).2 (by decide)⟩

/-! ### Blocks per node -/

/-- Rounding does not cross an integer above. -/
theorem roundHalfEven_le(x : ℚ) (M : ℤ) (h : x ≤ M) : roundHalfEven x ≤ M := by
  have hf : ⌊x⌋ ≤ M := Int.cast_le.mp (le_trans (Int.floor_le x) h)
  have hstep : (1 : ℚ) / 2 ≤ x - ⌊x⌋ → ⌊x⌋ + 1 ≤ M := by
    intro hx
    have : (⌊x⌋ : ℚ) < M := by linarith
    have : ⌊x⌋ < M := Int.cast_lt.mp this
    omega
  unfold roundHalfEven
  split_ifs with h1 h2 h3
  · exact hf
  · exact hstep (le_of_lt h2)
  · exact hf
  · exact hstep (not_lt.mp h1)

/-- Rounding does not cross an integer below. -/
theorem le_roundHalfEven (x : ℚ) (M : ℤ) (h : (M : ℚ) ≤ x) : M ≤ roundHalfEven x := by
  have hf : M ≤ ⌊x⌋ := Int.le_floor.mpr h
  unfold roundHalfEven
  split_ifs <;> omega

/-- A value more than one half above an integer rounds to a greater integer. -/
theorem succ_le_roundHalfEven (x : ℚ) (M : ℤ) (h : (M : ℚ) + 1 / 2 < x) :
    M + 1 ≤ roundHalfEven x := by
  have hf : M ≤ ⌊x⌋ := Int.le_floor.mpr (by linarith)
  by_cases hM : M + 1 ≤ ⌊x⌋
  · exact le_trans hM (le_roundHalfEven x _ (Int.floor_le x))
  · have heq : ⌊x⌋ = M := by omega
    unfold roundHalfEven
    rw [heq]
    have h1 : ¬ (x - (M : ℚ) < 1 / 2) := by linarith
    have h2 : (1 : ℚ) / 2 < x - M := by linarith
    simp only [h1, h2, if_true, if_false]
    exact le_refl _

/-- An integer rounds to itself. -/
theorem roundHalfEven_intCast (M : ℤ) : roundHalfEven (M : ℚ) = M :=
  le_antisymm (roundHalfEven_le _ M (le_refl _)) (le_roundHalfEven _ M (le_refl _))

/-- Rounding to `float64` keeps the ceiling of a positive value below `2 ^ 53`
that lies more than half a unit in the last place above the integer below
it. -/
theorem ceil_float64 (x : ℚ) (hx : 0 < x) (hk : Int.log 2 x ≤ 52)
    (hgap : (2 : ℚ) ^ (Int.log 2 x - 53) < x - (⌈x⌉ - 1)) :
    ⌈float64 x⌉ = ⌈x⌉ := by
  set k := Int.log 2 x with hkdef
  obtain ⟨j, hj⟩ : ∃ j : ℕ, (j : ℤ) = 52 - k := ⟨(52 - k).toNat, Int.toNat_of_nonneg (by omega)⟩
  have he : k - 52 = -(j : ℤ) := by omega
  have hP : (0 : ℚ) < (2 : ℚ) ^ j := by positivity
  have hdiv : ∀ y : ℚ, y / (2 : ℚ) ^ (k - 52) = y * (2 : ℚ) ^ j := by
    intro y
    rw [he, zpow_neg, zpow_natCast, div_inv_eq_mul]
  have hmul : ∀ y : ℚ, y * (2 : ℚ) ^ (k - 52) = y / (2 : ℚ) ^ j := by
    intro y
    rw [he, zpow_neg, zpow_natCast, div_eq_mul_inv]
  have hval : float64 x = (roundHalfEven (x * (2 : ℚ) ^ j) : ℚ) / (2 : ℚ) ^ j := by
    unfold float64
    rw [if_neg (not_le.mpr hx), ← hkdef, hdiv, hmul]
  have hhalf : (2 : ℚ) ^ (k - 53) * (2 : ℚ) ^ j = 1 / 2 := by
    have : k - 53 = -(j : ℤ) - 1 := by omega
    rw [this, zpow_sub₀ (by norm_num : (2 : ℚ) ≠ 0), zpow_neg, zpow_natCast, zpow_one]
    field_simp
  -- upper bound
  have hup : roundHalfEven (x * (2 : ℚ) ^ j) ≤ ⌈x⌉ * (2 : ℤ) ^ j := by
    apply roundHalfEven_le
    push_cast
    exact mul_le_mul_of_nonneg_right (Int.le_ceil x) (le_of_lt hP)
  -- lower bound
  have hlo : (⌈x⌉ - 1) * (2 : ℤ) ^ j + 1 ≤ roundHalfEven (x * (2 : ℚ) ^ j) := by
    apply succ_le_roundHalfEven
    push_cast
    have := mul_lt_mul_of_pos_right hgap hP
    rw [hhalf] at this
    linarith
  rw [hval]
  apply le_antisymm
  · rw [Int.ceil_le, div_le_iff₀ hP]
    exact_mod_cast hup
  · rw [← Int.sub_one_lt_iff, Int.lt_ceil, lt_div_iff₀ hP]
    have : ((⌈x⌉ - 1) * (2 : ℤ) ^ j : ℤ) < roundHalfEven (x * (2 : ℚ) ^ j) := by omega
    exact_mod_cast this


/-- An integer below `2 ^ 53` is a `float64` value. -/
theorem float64_natCast (a : ℕ) (ha : a < 2 ^ 53) : float64 (a : ℚ) = a := by
  rcases Nat.eq_zero_or_pos a with h0 | hpos
  · subst h0
    simp [float64]
  · have hx : (0 : ℚ) < a := by exact_mod_cast hpos
    have hlt : ((a : ℚ)) < (2 : ℚ) ^ (53 : ℤ) := by
      have ha2 : a < 9007199254740992 := by norm_num at ha; exact ha
      norm_num
      exact_mod_cast ha2
    have hk : Int.log 2 (a : ℚ) < 53 :=
      (Int.lt_zpow_iff_log_lt (by norm_num) hx).mp (by exact_mod_cast hlt)
    obtain ⟨j, hj⟩ : ∃ j : ℕ, (j : ℤ) = 52 - Int.log 2 (a : ℚ) :=
      ⟨(52 - Int.log 2 (a : ℚ)).toNat, Int.toNat_of_nonneg (by omega)⟩
    have he : Int.log 2 (a : ℚ) - 52 = -(j : ℤ) := by omega
    unfold float64
    rw [if_neg (not_le.mpr hx), he, zpow_neg, zpow_natCast, div_inv_eq_mul]
    have hcast : (a : ℚ) * (2 : ℚ) ^ j = (((a : ℤ) * (2 : ℤ) ^ j : ℤ) : ℚ) := by push_cast; ring
    rw [hcast, roundHalfEven_intCast]
    push_cast
    field_simp

/-- An integer from `2 ^ 53` on converts to a `float64` from `2 ^ 53` on. -/
theorem float64_natCast_ge (n : ℕ) (hn : 2 ^ 53 ≤ n) : (2 : ℚ) ^ (53 : ℕ) ≤ float64 (n : ℚ) := by
  have hx : (0 : ℚ) < n := by
    have : 0 < n := lt_of_lt_of_le (by positivity) hn
    exact_mod_cast this
  have hge : (2 : ℚ) ^ (53 : ℤ) ≤ (n : ℚ) := by
    have hn2 : 9007199254740992 ≤ n := by norm_num at hn; exact hn
    norm_num
    exact_mod_cast hn2
  have h252 : (((2 : ℤ) ^ 52 : ℤ) : ℚ) = (2 : ℚ) ^ (52 : ℤ) := by norm_num
  have hk : (53 : ℤ) ≤ Int.log 2 (n : ℚ) :=
    (Int.zpow_le_iff_le_log (by norm_num) hx).mp (by exact_mod_cast hge)
  have hpow : ((2 : ℕ) : ℚ) ^ Int.log 2 (n : ℚ) ≤ n := Int.zpow_log_le_self (by norm_num) hx
  have hpow2 : (2 : ℚ) ^ Int.log 2 (n : ℚ) ≤ n := by exact_mod_cast hpow
  have hE : (0 : ℚ) < (2 : ℚ) ^ (Int.log 2 (n : ℚ) - 52) := by positivity
  have hy : (((2 : ℤ) ^ 52 : ℤ) : ℚ) ≤ (n : ℚ) / (2 : ℚ) ^ (Int.log 2 (n : ℚ) - 52) := by
    rw [le_div_iff₀ hE]
    have : (((2 : ℤ) ^ 52 : ℤ) : ℚ) * (2 : ℚ) ^ (Int.log 2 (n : ℚ) - 52) =
        (2 : ℚ) ^ Int.log 2 (n : ℚ) := by
      rw [h252, ← zpow_add₀ (by norm_num : (2 : ℚ) ≠ 0)]
      congr 1
      omega
    rw [this]
    exact hpow2
  have hr := le_roundHalfEven _ _ hy
  unfold float64
  rw [if_neg (not_le.mpr hx)]
  have h1 : (((2 : ℤ) ^ 52 : ℤ) : ℚ) * (2 : ℚ) ^ (Int.log 2 (n : ℚ) - 52) ≤
      (roundHalfEven ((n : ℚ) / (2 : ℚ) ^ (Int.log 2 (n : ℚ) - 52)) : ℚ) *
        (2 : ℚ) ^ (Int.log 2 (n : ℚ) - 52) :=
    mul_le_mul_of_nonneg_right (by exact_mod_cast hr) (le_of_lt hE)
  refine le_trans ?_ h1
  rw [h252, ← zpow_add₀ (by norm_num : (2 : ℚ) ≠ 0), ← zpow_natCast]
  apply zpow_le_zpow_right₀ (by norm_num)
  push_cast
  omega


/-- Below `2 ^ 53` the computed target is the ceiling of the exact quotient. -/
theorem blockPerNode_eq (maxBlock num : ℕ) (hnum : 0 < num) (hmax : maxBlock < 2 ^ 53) :
    blockPerNode maxBlock num = ⌈(maxBlock : ℚ) / num⌉ := by
  unfold blockPerNode
  rw [float64_natCast maxBlock hmax]
  rcases Nat.eq_zero_or_pos maxBlock with h0 | hpos
  · subst h0
    simp [float64]
  have ha : (0 : ℚ) < maxBlock := by exact_mod_cast hpos
  have hn : (0 : ℚ) < num := by exact_mod_cast hnum
  have ha53 : (maxBlock : ℚ) < (2 : ℚ) ^ (53 : ℤ) := by
    have ha2 : maxBlock < 9007199254740992 := by norm_num at hmax; exact hmax
    norm_num
    exact_mod_cast ha2
  have two : (1 : ℕ) < 2 := by norm_num
  by_cases hsmall : num < 2 ^ 53
  · rw [float64_natCast num hsmall]
    have hn1 : (1 : ℚ) ≤ num := by exact_mod_cast hnum
    have hx : (0 : ℚ) < (maxBlock : ℚ) / num := div_pos ha hn
    have hxle : (maxBlock : ℚ) / num ≤ maxBlock := div_le_self (le_of_lt ha) hn1
    apply ceil_float64 _ hx
    · have : Int.log 2 ((maxBlock : ℚ) / num) < 53 :=
        (Int.lt_zpow_iff_log_lt two hx).mp (by exact_mod_cast lt_of_le_of_lt hxle ha53)
      omega
    · set k := Int.log 2 ((maxBlock : ℚ) / num) with hk
      have hpow : ((2 : ℕ) : ℚ) ^ k ≤ (maxBlock : ℚ) / num := Int.zpow_log_le_self two hx
      have hpow2 : (2 : ℚ) ^ k ≤ (maxBlock : ℚ) / num := by exact_mod_cast hpow
      -- the gap to the integer below is at least 1 / num
      have hc : ((⌈(maxBlock : ℚ) / num⌉ - 1 : ℤ) : ℚ) < (maxBlock : ℚ) / num := by
        have := Int.ceil_lt_add_one ((maxBlock : ℚ) / num)
        push_cast
        linarith
      have hci : (⌈(maxBlock : ℚ) / num⌉ - 1) * (num : ℤ) < maxBlock := by
        have := (lt_div_iff₀ hn).mp hc
        exact_mod_cast this
      have hci2 : (⌈(maxBlock : ℚ) / num⌉ - 1) * (num : ℤ) + 1 ≤ maxBlock := by omega
      have hgap : (1 : ℚ) / num ≤ (maxBlock : ℚ) / num - (⌈(maxBlock : ℚ) / num⌉ - 1) := by
        have h1 : (((⌈(maxBlock : ℚ) / num⌉ - 1) * (num : ℤ) + 1 : ℤ) : ℚ) ≤ (maxBlock : ℚ) := by
          exact_mod_cast hci2
        push_cast at h1
        rw [div_sub' _ _ _ (ne_of_gt hn), div_le_div_iff_of_pos_right hn]
        linarith
      -- and 2 ^ (k - 53) is below 1 / num
      have h53 : (2 : ℚ) ^ (k - 53) < 1 / num := by
        rw [zpow_sub₀ (by norm_num : (2 : ℚ) ≠ 0), div_lt_div_iff₀ (by positivity) hn, one_mul]
        have h1 : (2 : ℚ) ^ k * num ≤ maxBlock := (le_div_iff₀ hn).mp hpow2
        linarith
      linarith
  · have hbig : 2 ^ 53 ≤ num := not_lt.mp hsmall
    have hb := float64_natCast_ge num hbig
    have hb2 : (maxBlock : ℚ) < float64 (num : ℚ) := by
      have : (2 : ℚ) ^ (53 : ℤ) = (2 : ℚ) ^ (53 : ℕ) := by norm_num
      linarith
    have hbpos : (0 : ℚ) < float64 (num : ℚ) := lt_trans ha hb2
    have hx : (0 : ℚ) < (maxBlock : ℚ) / float64 (num : ℚ) := div_pos ha hbpos
    have hx1 : (maxBlock : ℚ) / float64 (num : ℚ) < 1 := (div_lt_one hbpos).mpr hb2
    have hceil : ⌈(maxBlock : ℚ) / float64 (num : ℚ)⌉ = 1 := by
      rw [Int.ceil_eq_iff]
      constructor
      · simpa using hx
      · simpa using le_of_lt hx1
    have hceil2 : ⌈(maxBlock : ℚ) / (num : ℚ)⌉ = 1 := by
      rw [Int.ceil_eq_iff]
      have hnb : (maxBlock : ℚ) < num := by
        have : maxBlock < num := lt_of_lt_of_le hmax hbig
        exact_mod_cast this
      constructor
      · simpa using div_pos ha hn
      · simpa using le_of_lt ((div_lt_one hn).mpr hnb)
    rw [hceil2, ← hceil]
    apply ceil_float64 _ hx
    · have : Int.log 2 ((maxBlock : ℚ) / float64 (num : ℚ)) < 53 :=
        (Int.lt_zpow_iff_log_lt two hx).mp (by
          have : (1 : ℚ) < ((2 : ℕ) : ℚ) ^ (53 : ℤ) := by norm_num
          exact lt_trans hx1 this)
      omega
    · rw [hceil]
      set k := Int.log 2 ((maxBlock : ℚ) / float64 (num : ℚ)) with hk
      have hpow : ((2 : ℕ) : ℚ) ^ k ≤ (maxBlock : ℚ) / float64 (num : ℚ) :=
        Int.zpow_log_le_self two hx
      have hpow2 : (2 : ℚ) ^ k ≤ (maxBlock : ℚ) / float64 (num : ℚ) := by exact_mod_cast hpow
      have hlt : (2 : ℚ) ^ (k - 53) < (2 : ℚ) ^ k :=
        zpow_lt_zpow_right₀ (by norm_num) (by omega)
      push_cast
      linarith


/-- The `float64` nearest to a value whose binary exponent is `k`. -/
theorem float64_eq (x : ℚ) (k m : ℤ) (hx : 0 < x) (h1 : (2 : ℚ) ^ k ≤ x)
    (h2 : x < (2 : ℚ) ^ (k + 1)) (hm : roundHalfEven (x / (2 : ℚ) ^ (k - 52)) = m) :
    float64 x = (m : ℚ) * (2 : ℚ) ^ (k - 52) := by
  have two : (1 : ℕ) < 2 := by norm_num
  have hk : Int.log 2 x = k := by
    apply le_antisymm
    · have : Int.log 2 x < k + 1 := (Int.lt_zpow_iff_log_lt two hx).mp (by exact_mod_cast h2)
      omega
    · exact (Int.zpow_le_iff_le_log two hx).mp (by exact_mod_cast h1)
  unfold float64
  rw [if_neg (not_le.mpr hx), hk, hm]

/-- A tie above an even integer rounds down to it. -/
theorem roundHalfEven_tie_even (f : ℤ) (hf : f % 2 = 0) :
    roundHalfEven ((f : ℚ) + 1 / 2) = f := by
  have hfl : ⌊(f : ℚ) + 1 / 2⌋ = f := by
    rw [Int.floor_eq_iff]
    constructor <;> norm_num
  unfold roundHalfEven
  rw [hfl]
  have h1 : ¬ ((f : ℚ) + 1 / 2 - f < 1 / 2) := by norm_num
  have h2 : ¬ ((1 : ℚ) / 2 < (f : ℚ) + 1 / 2 - f) := by norm_num
  simp only [h1, h2, hf, if_true, if_false]

/-- C9 fails for MaxBlock = 2 ^ 53 + 1 and Num = 1: the conversion to `float64`
rounds MaxBlock to `2 ^ 53`, the target is `2 ^ 53`, and `2 ^ 53` nodes times 1
is less than MaxBlock, so the target is not the ceiling of MaxBlock / Num. -/
theorem blockPerNode_not_ceil :
    blockPerNode 9007199254740993 1 = 9007199254740992 ∧
    ¬ ((9007199254740993 : ℤ) ≤ blockPerNode 9007199254740993 1 * 1) := by
  have ha : float64 ((9007199254740993 : ℕ) : ℚ) = 9007199254740992 := by
    rw [float64_eq _ 53 4503599627370496 (by norm_num) (by norm_num) (by norm_num)]
    · norm_num
    · have := roundHalfEven_tie_even 4503599627370496 (by norm_num)
      rw [← this]
      congr 1
      norm_num
  have hb : float64 ((1 : ℕ) : ℚ) = 1 := by
    simpa using float64_natCast 1 (by norm_num)
  have hq : float64 (9007199254740992 : ℚ) = 9007199254740992 := by
    rw [float64_eq _ 53 4503599627370496 (by norm_num) (by norm_num) (by norm_num)]
    · norm_num
    · have := roundHalfEven_intCast 4503599627370496
      rw [← this]
      congr 1
      norm_num
  have hval : blockPerNode 9007199254740993 1 = 9007199254740992 := by
    unfold blockPerNode
    rw [ha, hb, div_one, hq]
    exact_mod_cast Int.ceil_intCast (9007199254740992 : ℤ)
  refine ⟨hval, ?_⟩
  rw [hval]
  norm_num

/-- C9, amended: for every configuration with Num > 0 and 0 ≤ MaxBlock < 2 ^ 53
the target is the ceiling of MaxBlock / Num, that is the least integer k with
k * Num ≥ MaxBlock. -/
theorem blockPerNode_eq_ceil (maxBlock num : ℕ) (hnum : 0 < num) (hmax : maxBlock < 2 ^ 53) :
    blockPerNode maxBlock num = ⌈(maxBlock : ℚ) / num⌉ ∧
    (maxBlock : ℤ) ≤ blockPerNode maxBlock num * num ∧
    ∀ k : ℤ, (maxBlock : ℤ) ≤ k * num → blockPerNode maxBlock num ≤ k := by
  have hn : (0 : ℚ) < num := by exact_mod_cast hnum
  have h := blockPerNode_eq maxBlock num hnum hmax
  refine ⟨h, ?_, ?_⟩
  · rw [h]
    have := Int.le_ceil ((maxBlock : ℚ) / num)
    rw [div_le_iff₀ hn] at this
    exact_mod_cast this
  · intro k hk
    rw [h, Int.ceil_le, div_le_iff₀ hn]
    exact_mod_cast hk

/-- C9, amended, for MaxBlock = 40 and Num = 4: the target is 10. -/
theorem blockPerNode_eq_ceil_witness :
    0 < 4 ∧ 40 < 2 ^ 53 ∧ blockPerNode 40 4 = 10 := by
  have h := (blockPerNode_eq_ceil 40 4 (by norm_num) (by norm_num)).1
  refine ⟨by norm_num, by norm_num, ?_⟩
  rw [h]
  norm_num

/-! ### Clone and the derived state -/

/-- Cloning a clone: the second clone's map holds what the first clone's map
holds, read in the heap after both clones. -/
theorem Store.clone_again_lookup {K E : Type} [DecidableEq K] (s : Store K E) (r : MapRef)
    (hr : ∀ a, r = some a → a < s.length) (k : K) :
    Store.lookup ((s ++ [∅]).set s.length
        ((Store.range s r).foldl (fun (acc : GoMap K E) (kv : K × E) => acc.insert kv.1 kv.2) ∅))
        (some s.length) k =
      Store.lookup ((s ++ [∅]).set s.length
        ((Store.range s r).foldl (fun (acc : GoMap K E) (kv : K × E) => acc.insert kv.1 kv.2) ∅))
        r k := by
  obtain ⟨_, h2, h3, _, _⟩ := Store.fresh_separate s r hr
    ((Store.range s r).foldl (fun (acc : GoMap K E) (kv : K × E) => acc.insert kv.1 kv.2) ∅)
  have hl : ∀ (t : Store K E) (x : MapRef), Store.lookup t x k =
      match Store.get? t x with
      | none => none
      | some m => m.lookup k := fun _ _ => rfl
  rw [hl, hl, h2, h3, ← hl]
  exact Store.lookup_foldl_range s r k

/-- C11: for every block, whatever its Status, Ackeds and AckedValidators are,
Clone returns a block with Status BlockStatusInit and nil Ackeds and
AckedValidators, and the same block and heap for any other values of the three
fields; so a block whose Status is Final is cloned to one whose Status is
Init. Cloning the clone returns a block that agrees with the clone on every
field: the same values, and Timestamps and Acks with the same content. -/
theorem Clone_discards_derived_state {VID Time : Type} [DecidableEq VID] (h : Heap VID Time)
    (b : Block VID Time) :
    ∃ bc h1, Block.Clone h b = some (bc, h1) ∧
      bc.Status = Status.BlockStatusInit ∧ bc.Ackeds = none ∧ bc.AckedValidators = none ∧
      (∀ (s : Status) (a v : MapRef),
        Block.Clone h { b with Status := s, Ackeds := a, AckedValidators := v } =
          some (bc, h1)) ∧
      (b.Status = Status.BlockStatusFinal → bc.Status = Status.BlockStatusInit) ∧
      ∃ bcc h2, Block.Clone h1 bc = some (bcc, h2) ∧
        bcc.ProposerID = bc.ProposerID ∧ bcc.ParentHash = bc.ParentHash ∧
        bcc.Hash = bc.Hash ∧ bcc.Height = bc.Height ∧
        bcc.CompactionChainAck = bc.CompactionChainAck ∧ bcc.Signature = bc.Signature ∧
        bcc.ConsensusInfo = bc.ConsensusInfo ∧
        bcc.ConsensusInfoParentHash = bc.ConsensusInfoParentHash ∧
        bcc.Ackeds = bc.Ackeds ∧ bcc.AckedValidators = bc.AckedValidators ∧
        bcc.Status = bc.Status ∧
        (∀ k, Store.lookup h2.timeMaps bcc.Timestamps k =
          Store.lookup h2.timeMaps bc.Timestamps k) ∧
        (∀ k, Store.lookup h2.hashSets bcc.Acks k = Store.lookup h2.hashSets bc.Acks k) := by
  refine ⟨_, _, Block.Clone_eq h b, rfl, rfl, rfl, fun s a v => Block.Clone_eq h _,
    fun _ => rfl, _, _, Block.Clone_eq _ _, rfl, rfl, rfl, rfl, rfl, rfl, rfl, rfl, rfl, rfl,
    rfl, ?_, ?_⟩
  · intro k
    have hlen : ((h.timeMaps ++ [∅]).set h.timeMaps.length
        ((Store.range h.timeMaps b.Timestamps).foldl
          (fun (acc : GoMap VID Time) (kv : VID × Time) => acc.insert kv.1 kv.2) ∅)).length =
        h.timeMaps.length + 1 := by simp
    exact Store.clone_again_lookup _ (some h.timeMaps.length)
      (fun a ha => by rw [hlen]; cases ha; omega) k
  · intro k
    have hlen : ((h.hashSets ++ [∅]).set h.hashSets.length
        ((Store.range h.hashSets b.Acks).foldl
          (fun (acc : GoMap common.Hash Unit) (kv : common.Hash × Unit) =>
            acc.insert kv.1 kv.2) ∅)).length =
        h.hashSets.length + 1 := by simp
    exact Store.clone_again_lookup _ (some h.hashSets.length)
      (fun a ha => by rw [hlen]; cases ha; omega) k

/-- C11, on the example block, final and with a non-nil Ackeds: its clone has
Status Init and nil Ackeds and AckedValidators. -/
theorem Clone_discards_derived_state_witness :
    ∃ bc h1, Block.Clone exampleHeap
        { exampleBlock with
          Status := Status.BlockStatusFinal
          Ackeds := some 0
          AckedValidators := none } = some (bc, h1) ∧
      bc.Status = Status.BlockStatusInit ∧ bc.Ackeds = none ∧ bc.AckedValidators = none :=
  match Clone_discards_derived_state exampleHeap exampleBlock with
  | ⟨bc, h1, _, hs, ha, hv, hall, _⟩ =>
    ⟨bc, h1, hall Status.BlockStatusFinal (some 0) none, hs, ha, hv⟩

end Dexon
